import Mathlib

/-!
Verification development for the BetterSale customer-service repository.

The development shallowly embeds the parts of the code base that the checked
properties are about:

* the SSE response parsing of the Streamlit client
  (`parse_sse_response` in `streamlit_app.py` and its second copy in
  `streamlit_components/utils.py`), over a model of Python/JSON values;
* the cart / order database operations
  (`customer_service/database/operations.py`) over an explicit relational
  state;
* the exception-fallback tool wrappers
  (`customer_service/database/db_tools.py`);
* the cart display update and the agent endpoint selection of the
  Streamlit client, and the ORM schema of
  `customer_service/database/models.py`.

Modelling conventions: Python strings are Lean `String`s (lower-casing,
whitespace stripping and the `\w` word-character class are modelled on the
ASCII range); JSON numbers are rationals (Python distinguishes int/float
and prints floats differently, but the embedded code never branches on
that distinction, and `NaN`/`Infinity` literals are not modelled); Python
runtime errors that the source code can actually raise (TypeError,
IndexError, AttributeError, KeyError, UnboundLocalError) are modelled with
an explicit `Except`.
-/

set_option autoImplicit false

namespace BetterSale

/-! ### Python string primitives -/

/-- Whitespace as stripped by Python `str.strip` (ASCII range). -/
def pyIsSpace (c : Char) : Bool :=
  c = ' ' || c = '\t' || c = '\n' || c = '\r' || c = '\x0b' || c = '\x0c'

/-- Model of Python `str.strip` on a character list. -/
def pyStripList (cs : List Char) : List Char :=
  ((cs.dropWhile pyIsSpace).reverse.dropWhile pyIsSpace).reverse

/-- Model of Python `str.strip`. -/
def pyStrip (s : String) : String :=
  String.mk (pyStripList s.data)

/-- Model of Python `s.split("data:")` (split on the literal separator). -/
def splitOnData : List Char → List (List Char)
  | [] => [[]]
  | 'd' :: 'a' :: 't' :: 'a' :: ':' :: rest => [] :: splitOnData rest
  | c :: rest =>
    match splitOnData rest with
    | [] => [[c]]
    | piece :: pieces => (c :: piece) :: pieces

/-- Model of the Python substring test `needle in haystack`. -/
def containsSeq (needle : List Char) : List Char → Bool
  | [] => needle.isEmpty
  | c :: rest => needle.isPrefixOf (c :: rest) || containsSeq needle rest

/-- Model of Python `str.lower` (ASCII range). -/
def pyLowerStr (s : String) : String :=
  String.mk (s.data.map Char.toLower)

/-! ### Python/JSON values -/

/-- A JSON value, as produced by Python `json.loads` (objects keep key
insertion order with last-wins duplicate handling, as Python dicts do). -/
inductive JValue where
  | null
  | bool (b : Bool)
  | num (q : ℚ)
  | str (s : String)
  | arr (elems : List JValue)
  | obj (fields : List (String × JValue))

/-- Python runtime errors that the embedded code can raise. -/
inductive PyErr where
  | typeErr
  | indexErr
  | attributeErr
  | keyErr
  | unboundLocalErr
deriving DecidableEq, Repr

mutual

/-- Structural equality of JSON values (model of Python `==` on decoded
JSON data, restricted to the comparisons the embedded code performs). -/
def JValue.beq : JValue → JValue → Bool
  | .null, .null => true
  | .bool a, .bool b => a == b
  | .num a, .num b => a == b
  | .str a, .str b => a == b
  | .arr a, .arr b => beqElems a b
  | .obj a, .obj b => beqFields a b
  | _, _ => false

def beqElems : List JValue → List JValue → Bool
  | [], [] => true
  | x :: xs, y :: ys => x.beq y && beqElems xs ys
  | _, _ => false

def beqFields : List (String × JValue) → List (String × JValue) → Bool
  | [], [] => true
  | (k, v) :: xs, (k2, v2) :: ys => k == k2 && v.beq v2 && beqFields xs ys
  | _, _ => false

end

/-- Python truthiness of a decoded JSON value. -/
def JValue.truthy : JValue → Bool
  | .null => false
  | .bool b => b
  | .num q => q != 0
  | .str s => !s.isEmpty
  | .arr l => !l.isEmpty
  | .obj f => !f.isEmpty

/-- Lookup in an object's field list (keys are unique by construction). -/
def objGet : List (String × JValue) → String → Option JValue
  | [], _ => none
  | (k, v) :: rest, key => if k = key then some v else objGet rest key

/-- Model of Python `d.get(key)` (missing key yields `None`). -/
def jget (fields : List (String × JValue)) (key : String) : JValue :=
  (objGet fields key).getD .null

/-- Model of Python `d.get(key, dflt)`: the default applies only when the
key is missing, a stored `null` is returned as `None`. -/
def objGetD (fields : List (String × JValue)) (key : String) (dflt : JValue) : JValue :=
  (objGet fields key).getD dflt

/-- Model of Python `key in d` for a dict. -/
def objMem (fields : List (String × JValue)) (key : String) : Bool :=
  (objGet fields key).isSome

/-- Insertion into an object's field list with Python dict semantics: an
existing key keeps its position and gets the new value. -/
def objInsert : List (String × JValue) → String → JValue → List (String × JValue)
  | [], key, v => [(key, v)]
  | (k, w) :: rest, key, v =>
    if k = key then (k, v) :: rest else (k, w) :: objInsert rest key v

/-- Key membership for a dict keyed by JSON values (the `tool_outputs`
dict of `parse_sse_response`). -/
def dictHasKey (d : List (JValue × JValue)) (k : JValue) : Bool :=
  d.any fun p => p.1.beq k

/-- Insertion with Python dict semantics into a dict keyed by JSON values. -/
def dictInsert : List (JValue × JValue) → JValue → JValue → List (JValue × JValue)
  | [], k, v => [(k, v)]
  | (k0, v0) :: rest, k, v =>
    if k0.beq k then (k0, v) :: rest else (k0, v0) :: dictInsert rest k v

/-- Model of the Python membership test `key in x` as it appears in
`parse_sse_response`: substring test on strings, element test on lists,
key test on dicts, `TypeError` otherwise. -/
def pyContains (j : JValue) (key : String) : Except PyErr Bool :=
  match j with
  | .obj f => .ok (objMem f key)
  | .arr l => .ok (l.any fun x => x.beq (.str key))
  | .str s => .ok (containsSeq key.data s.data)
  | _ => .error .typeErr

/-! ### Model of Python `json.loads` -/

/-- JSON whitespace. -/
def jsonWs (c : Char) : Bool :=
  c = ' ' || c = '\t' || c = '\n' || c = '\r'

def skipWs : List Char → List Char
  | [] => []
  | c :: rest => if jsonWs c then skipWs rest else c :: rest

def hexDigitVal (c : Char) : Option Nat :=
  if '0' ≤ c ∧ c ≤ '9' then some (c.toNat - 48)
  else if 'a' ≤ c ∧ c ≤ 'f' then some (c.toNat - 87)
  else if 'A' ≤ c ∧ c ≤ 'F' then some (c.toNat - 55)
  else none

def digitsToNat (ds : List Char) : Nat :=
  ds.foldl (fun n c => n * 10 + (c.toNat - 48)) 0

/-- Exponent part of a JSON number, after the `e`/`E`. -/
def parseExp (cs : List Char) : Option (Int × List Char) :=
  let (esign, cs1) : Int × List Char :=
    match cs with
    | '+' :: rest => (1, rest)
    | '-' :: rest => (-1, rest)
    | _ => (1, cs)
  let ds := cs1.takeWhile Char.isDigit
  if ds.isEmpty then none
  else some (esign * (digitsToNat ds : Int), cs1.drop ds.length)

def tenPowQ (e : Int) : ℚ :=
  if 0 ≤ e then ((10 ^ e.toNat : Nat) : ℚ) else 1 / ((10 ^ (-e).toNat : Nat) : ℚ)

/-- A JSON number, following the number grammar of Python's `json` module:
the fraction and exponent are consumed only when complete, as the lexing
regex does. -/
def parseJNum (cs : List Char) : Option (ℚ × List Char) :=
  let (neg, cs1) : Bool × List Char :=
    match cs with
    | '-' :: rest => (true, rest)
    | _ => (false, cs)
  match cs1 with
  | [] => none
  | c :: _ =>
    if !c.isDigit then none
    else
      let intDigits := if c = '0' then ['0'] else cs1.takeWhile Char.isDigit
      let cs2 := cs1.drop intDigits.length
      let (fracDigits, cs3) : List Char × List Char :=
        match cs2 with
        | '.' :: rest =>
          let fd := rest.takeWhile Char.isDigit
          if fd.isEmpty then ([], cs2) else (fd, rest.drop fd.length)
        | _ => ([], cs2)
      let (expVal, cs4) : Int × List Char :=
        match cs3 with
        | 'e' :: rest =>
          match parseExp rest with
          | some (e, r) => (e, r)
          | none => (0, cs3)
        | 'E' :: rest =>
          match parseExp rest with
          | some (e, r) => (e, r)
          | none => (0, cs3)
        | _ => (0, cs3)
      let mant : Int := (digitsToNat (intDigits ++ fracDigits) : Int)
      let signedMant := if neg then -mant else mant
      some ((signedMant : ℚ) * tenPowQ (expVal - fracDigits.length), cs4)

/-- Body of a JSON string after the opening quote.  Surrogate pairs are
combined as Python does; a lone surrogate (which Python keeps as such) has
no `Char` counterpart and is mapped through `Char.ofNat`. -/
def parseJStrBody : Nat → List Char → List Char → Option (List Char × List Char)
  | 0, _, _ => none
  | _ + 1, _, [] => none
  | fuel + 1, acc, c :: rest =>
    if c = '"' then some (acc.reverse, rest)
    else if c = '\\' then
      match rest with
      | [] => none
      | e :: rest2 =>
        if e = '"' then parseJStrBody fuel ('"' :: acc) rest2
        else if e = '\\' then parseJStrBody fuel ('\\' :: acc) rest2
        else if e = '/' then parseJStrBody fuel ('/' :: acc) rest2
        else if e = 'b' then parseJStrBody fuel ('\x08' :: acc) rest2
        else if e = 'f' then parseJStrBody fuel ('\x0c' :: acc) rest2
        else if e = 'n' then parseJStrBody fuel ('\n' :: acc) rest2
        else if e = 'r' then parseJStrBody fuel ('\r' :: acc) rest2
        else if e = 't' then parseJStrBody fuel ('\t' :: acc) rest2
        else if e = 'u' then
          match rest2 with
          | h1 :: h2 :: h3 :: h4 :: rest3 =>
            match hexDigitVal h1, hexDigitVal h2, hexDigitVal h3, hexDigitVal h4 with
            | some a, some b, some c2, some d =>
              let n := ((a * 16 + b) * 16 + c2) * 16 + d
              if 0xD800 ≤ n ∧ n ≤ 0xDBFF then
                match rest3 with
                | '\\' :: 'u' :: g1 :: g2 :: g3 :: g4 :: rest4 =>
                  match hexDigitVal g1, hexDigitVal g2, hexDigitVal g3, hexDigitVal g4 with
                  | some a2, some b2, some c3, some d2 =>
                    let m := ((a2 * 16 + b2) * 16 + c3) * 16 + d2
                    if 0xDC00 ≤ m ∧ m ≤ 0xDFFF then
                      parseJStrBody fuel
                        (Char.ofNat (0x10000 + (n - 0xD800) * 0x400 + (m - 0xDC00)) :: acc) rest4
                    else parseJStrBody fuel (Char.ofNat n :: acc) rest3
                  | _, _, _, _ => parseJStrBody fuel (Char.ofNat n :: acc) rest3
                | _ => parseJStrBody fuel (Char.ofNat n :: acc) rest3
              else parseJStrBody fuel (Char.ofNat n :: acc) rest2.tail.tail.tail.tail
            | _, _, _, _ => none
          | _ => none
        else none
    else if c.toNat < 0x20 then none
    else parseJStrBody fuel (c :: acc) rest

mutual

/-- A JSON value (strict mode, as Python `json.loads` defaults to, without
the `NaN`/`Infinity` extensions).  Leading whitespace must already be
skipped. -/
def parseJVal : Nat → List Char → Option (JValue × List Char)
  | 0, _ => none
  | fuel + 1, cs =>
    match cs with
    | [] => none
    | '"' :: rest =>
      match parseJStrBody (fuel + 1) [] rest with
      | some (body, rest2) => some (.str (String.mk body), rest2)
      | none => none
    | '[' :: rest =>
      match skipWs rest with
      | ']' :: rest2 => some (.arr [], rest2)
      | cs2 => parseJArrItems fuel [] cs2
    | '\x7b' :: rest =>
      match skipWs rest with
      | '\x7d' :: rest2 => some (.obj [], rest2)
      | cs2 => parseJObjItems fuel [] cs2
    | 't' :: 'r' :: 'u' :: 'e' :: rest => some (.bool true, rest)
    | 'f' :: 'a' :: 'l' :: 's' :: 'e' :: rest => some (.bool false, rest)
    | 'n' :: 'u' :: 'l' :: 'l' :: rest => some (.null, rest)
    | c :: _ =>
      if c = '-' || c.isDigit then
        match parseJNum cs with
        | some (q, rest) => some (.num q, rest)
        | none => none
      else none

/-- Comma-separated array items, expecting at least one value. -/
def parseJArrItems : Nat → List JValue → List Char → Option (JValue × List Char)
  | 0, _, _ => none
  | fuel + 1, acc, cs =>
    match parseJVal fuel (skipWs cs) with
    | none => none
    | some (v, rest) =>
      match skipWs rest with
      | ',' :: rest2 => parseJArrItems fuel (v :: acc) rest2
      | ']' :: rest2 => some (.arr (v :: acc).reverse, rest2)
      | _ => none

/-- Comma-separated object entries, expecting at least one `"key": value`
pair; duplicate keys overwrite in place, as Python dicts do. -/
def parseJObjItems : Nat → List (String × JValue) → List Char → Option (JValue × List Char)
  | 0, _, _ => none
  | fuel + 1, acc, cs =>
    match skipWs cs with
    | '"' :: rest =>
      match parseJStrBody fuel [] rest with
      | none => none
      | some (key, rest2) =>
        match skipWs rest2 with
        | ':' :: rest3 =>
          match parseJVal fuel (skipWs rest3) with
          | none => none
          | some (v, rest4) =>
            let acc2 := objInsert acc (String.mk key) v
            match skipWs rest4 with
            | ',' :: rest5 => parseJObjItems fuel acc2 rest5
            | '\x7d' :: rest5 => some (.obj acc2, rest5)
            | _ => none
        | _ => none
    | _ => none

end

/-- Model of Python `json.loads` on the JSON fragment the repository
exercises. -/
def loads (s : String) : Option JValue :=
  let cs := s.data
  match parseJVal (2 * cs.length + 8) (skipWs cs) with
  | some (v, rest) => if (skipWs rest).isEmpty then some v else none
  | none => none

mutual

/-- Model of Python `str(x)` on decoded JSON data, used only for the
substring probe `"cart" in str(parsed_response).lower()`.  String escaping
and float printing are simplified; neither can create or destroy an
occurrence of the letters `cart`. -/
def pyRepr : JValue → String
  | .null => "None"
  | .bool true => "True"
  | .bool false => "False"
  | .num q => if q.den = 1 then toString q.num else toString q
  | .str s => "\x27" ++ s ++ "\x27"
  | .arr l => "[" ++ pyReprElems l ++ "]"
  | .obj f => "\x7b" ++ pyReprFields f ++ "\x7d"

def pyReprElems : List JValue → String
  | [] => ""
  | [x] => pyRepr x
  | x :: y :: rest => pyRepr x ++ ", " ++ pyReprElems (y :: rest)

def pyReprFields : List (String × JValue) → String
  | [] => ""
  | [(k, v)] => "\x27" ++ k ++ "\x27: " ++ pyRepr v
  | (k, v) :: x :: rest => "\x27" ++ k ++ "\x27: " ++ pyRepr v ++ ", " ++ pyReprFields (x :: rest)

end

/-! ### The SSE response parsing of the Streamlit client -/

/-- Python `\w` word characters (ASCII range). -/
def isWordChar (c : Char) : Bool :=
  c.isAlphanum || c = '_'

/-- Model of `re.search(r"(\w+)\(", tool_code)`: the first word-character
run that is immediately followed by an opening parenthesis. -/
def findToolName : List Char → Option String
  | [] => none
  | c :: rest =>
    if isWordChar c then
      let run := (c :: rest).takeWhile isWordChar
      match (c :: rest).drop run.length with
      | '(' :: _ => some (String.mk run)
      | _ => findToolName rest
    else findToolName rest

/-- The mutable state of one `parse_sse_response` call: the local
variables `assistant_reply`, `tool_outputs`, `order_confirmed`, and the
`tool_name` local (`none` models the variable being unbound). -/
structure SseState where
  assistantReply : Option String
  toolOutputs : List (JValue × JValue)
  orderConfirmed : Bool
  toolNameVar : Option JValue

def initSse : SseState := ⟨none, [], false, none⟩

/-- The return value of `parse_sse_response`. -/
structure SseResult where
  assistantReply : Option String
  toolOutputs : List (JValue × JValue)
  orderConfirmed : Bool

/-- The fixed order-confirmation phrases of `parse_sse_response`. -/
def orderPhrases : List String :=
  ["order confirmed", "order has been placed", "order is confirmed",
   "successfully placed your order", "order has been submitted",
   "order id", "order number", "order processed"]

/-- Whether the (already stripped) assistant reply, lower-cased, contains
one of the order-confirmation phrases. -/
def phraseHit (reply : String) : Bool :=
  orderPhrases.any fun p => containsSeq p.data (pyLowerStr reply).data

/-- Text extraction of `parse_sse_response` (the block guarded by
`"content" in agent_data and isinstance(..., dict) and "parts" in ...`):
the stripped `content.parts[0].text` when it is a truthy string, `none`
when the guard fails or the text is falsy, and the Python error the block
would raise otherwise. -/
def textExtract (j : JValue) : Except PyErr (Option String) :=
  match pyContains j "content" with
  | .error e => .error e
  | .ok false => .ok none
  | .ok true =>
    match j with
    | .obj f =>
      match jget f "content" with
      | .obj cf =>
        if objMem cf "parts" then
          match jget cf "parts" with
          | .arr (p :: _) =>
            match p with
            | .obj pf =>
              let t := jget pf "text"
              if t.truthy then
                match t with
                | .str s => .ok (some (pyStrip s))
                | _ => .error .attributeErr
              else .ok none
            | _ => .error .attributeErr
          | .arr [] => .error .indexErr
          | .str s => if s.isEmpty then .error .indexErr else .error .attributeErr
          | .obj _ => .error .keyErr
          | _ => .error .typeErr
        else .ok none
      | _ => .ok none
    | _ => .error .attributeErr

/-- The text-content step of `parse_sse_response`: records the assistant
reply and checks it for order-confirmation phrases. -/
def textStep (st : SseState) (j : JValue) : Except PyErr SseState :=
  match textExtract j with
  | .error e => .error e
  | .ok none => .ok st
  | .ok (some reply) =>
    .ok { st with
          assistantReply := some reply,
          orderConfirmed := st.orderConfirmed || phraseHit reply }

/-- Unwrapping of the `actions` field: a list is replaced by its first
element (`actions[0]`, an `IndexError` on an empty list). -/
def unwrapActions (a : JValue) : Except PyErr JValue :=
  match a with
  | .arr [] => .error .indexErr
  | .arr (x :: _) => .ok x
  | v => .ok v

/-- The `tool_code`/`tool_result` branch over the `actions` dict:
`re.search` needs a string `tool_code` and `json.loads` a string
`tool_result` (`TypeError` otherwise, uncaught in the source). -/
def toolCodeStep (st : SseState) (af : List (String × JValue)) : Except PyErr SseState :=
  let toolCode := jget af "tool_code"
  let toolResult := jget af "tool_result"
  if toolCode.truthy && toolResult.truthy then
    match toolCode with
    | .str code =>
      match findToolName code.data with
      | some name =>
        match toolResult with
        | .str rs =>
          .ok { st with
                toolNameVar := some (.str name),
                toolOutputs :=
                  dictInsert st.toolOutputs (.str name) ((loads rs).getD (.str rs)) }
        | _ => .error .typeErr
      | none => .ok st
    | _ => .error .typeErr
  else .ok st

/-- The `actions.function_call` branch as in `streamlit_app.py`: assigns
the `tool_name` local, and for `access_cart_information` (when the
arguments parse) stores the accompanying `actions.function_result`. -/
def fnCallStepApp (st : SseState) (af : List (String × JValue)) : SseState :=
  match jget af "function_call" with
  | .obj fcf =>
    let name := jget fcf "name"
    let st1 := { st with toolNameVar := some name }
    let args := objGetD fcf "arguments" (.str "\x7b\x7d")
    if name.truthy then
      let argsOk :=
        match args with
        | .str s => (loads s).isSome
        | _ => true
      if argsOk then
        if name.beq (.str "access_cart_information") then
          let fres := objGetD af "function_result" (.str "\x7b\x7d")
          if fres.truthy then
            let parsed :=
              match fres with
              | .str s => (loads s).getD (.str s)
              | v => v
            { st1 with toolOutputs := dictInsert st1.toolOutputs name parsed }
          else st1
        else st1
      else st1
    else st1
  | _ => st

/-- The `actions.function_call` branch as in `streamlit_components/utils.py`:
it assigns the `tool_name` local but never stores anything (the remaining
statements of the branch only parse arguments and log). -/
def fnCallStepUtils (st : SseState) (af : List (String × JValue)) : SseState :=
  match jget af "function_call" with
  | .obj fcf => { st with toolNameVar := some (jget fcf "name") }
  | _ => st

/-- The whole `actions` block of `streamlit_app.py` (`agent_data.get` on a
non-dict message raises `AttributeError`, uncaught in the source). -/
def actionsStepApp (st : SseState) (j : JValue) : Except PyErr SseState :=
  match j with
  | .obj f =>
    match unwrapActions (jget f "actions") with
    | .error e => .error e
    | .ok a =>
      match a with
      | .obj af =>
        match toolCodeStep st af with
        | .error e => .error e
        | .ok st1 => .ok (fnCallStepApp st1 af)
      | _ => .ok st
  | _ => .error .attributeErr

/-- The whole `actions` block of `streamlit_components/utils.py`. -/
def actionsStepUtils (st : SseState) (j : JValue) : Except PyErr SseState :=
  match j with
  | .obj f =>
    match unwrapActions (jget f "actions") with
    | .error e => .error e
    | .ok a =>
      match a with
      | .obj af =>
        match toolCodeStep st af with
        | .error e => .error e
        | .ok st1 => .ok (fnCallStepUtils st1 af)
      | _ => .ok st
  | _ => .error .attributeErr

/-- The `functionResponse` half of one `content.parts` element: a truthy
`functionResponse` with truthy `response`/`result`/`content` data is
stored under the current `tool_name` local (an unbound `tool_name` raises
`UnboundLocalError`; an unhashable one raises `TypeError`; a falsy bound
one falls back to the `"cart" in str(...)` probe). -/
def partStepStore (st1 : SseState) (rd : JValue) : Except PyErr SseState :=
  if rd.truthy then
    let parsed :=
      match rd with
      | .str s => (loads s).getD (.str s)
      | v => v
    match st1.toolNameVar with
    | none => .error .unboundLocalErr
    | some tn =>
      if tn.truthy then
        match tn with
        | .arr _ => .error .typeErr
        | .obj _ => .error .typeErr
        | _ =>
          .ok { st1 with toolOutputs := dictInsert st1.toolOutputs tn parsed }
      else
        if containsSeq "cart".data (pyLowerStr (pyRepr parsed)).data then
          .ok { st1 with
                toolOutputs :=
                  dictInsert st1.toolOutputs (.str "access_cart_information") parsed }
        else .ok st1
  else .ok st1

def partStepFr (st1 : SseState) (pf : List (String × JValue)) : Except PyErr SseState :=
  let fr := jget pf "functionResponse"
  if fr.truthy then
    match fr with
    | .obj frf =>
      partStepStore st1
        (if (jget frf "response").truthy then jget frf "response"
         else if (jget frf "result").truthy then jget frf "result"
         else if (jget frf "content").truthy then jget frf "content"
         else .null)
    | _ => .error .attributeErr
  else .ok st1

/-- Processing of one element of `content.parts` (identical in both
copies): a truthy `functionCall` first reassigns the `tool_name` local,
then the `functionResponse` half runs. -/
def partStep (st : SseState) (p : JValue) : Except PyErr SseState :=
  match p with
  | .obj pf =>
    let fc := jget pf "functionCall"
    if fc.truthy then
      match fc with
      | .obj fcf => partStepFr { st with toolNameVar := some (jget fcf "name") } pf
      | _ => .error .attributeErr
    else partStepFr st pf
  | _ => .error .attributeErr

/-- Error-propagating fold of a per-item step over a list. -/
def runFold (step : SseState → JValue → Except PyErr SseState) :
    SseState → List JValue → Except PyErr SseState
  | st, [] => .ok st
  | st, j :: rest =>
    match step st j with
    | .error e => .error e
    | .ok st2 => runFold step st2 rest

/-- The loop over `content.parts` (identical in both copies); iterating a
dict yields its keys and iterating a string yields its characters, as in
Python. -/
def partsStep (st : SseState) (j : JValue) : Except PyErr SseState :=
  match pyContains j "content" with
  | .error e => .error e
  | .ok false => .ok st
  | .ok true =>
    match j with
    | .obj f =>
      match jget f "content" with
      | .obj cf =>
        match objGetD cf "parts" (.arr []) with
        | .arr l => runFold partStep st l
        | .obj pf => runFold partStep st (pf.map fun kv => .str kv.1)
        | .str s => runFold partStep st (s.data.map fun c => .str (String.mk [c]))
        | _ => .error .typeErr
      | _ => .ok st
    | _ => .error .attributeErr

/-- Processing of one element of the `tool_calls` list (identical in both
copies): a dict element assigns the `tool_name` local and, when its name
and response are truthy, stores the response (an unhashable name raises
`TypeError`, uncaught here). -/
def toolCallItem (st : SseState) (tc : JValue) : Except PyErr SseState :=
  match tc with
  | .obj tcf =>
    let name := jget tcf "name"
    let st1 := { st with toolNameVar := some name }
    let resp := jget tcf "response"
    if name.truthy && resp.truthy then
      let parsed :=
        match resp with
        | .str s => (loads s).getD (.str s)
        | v => v
      match name with
      | .arr _ => .error .typeErr
      | .obj _ => .error .typeErr
      | _ => .ok { st1 with toolOutputs := dictInsert st1.toolOutputs name parsed }
    else .ok st1
  | _ => .ok st

/-- The `tool_calls` block (identical in both copies). -/
def toolCallsStep (st : SseState) (j : JValue) : Except PyErr SseState :=
  match j with
  | .obj f =>
    match objGetD f "tool_calls" (.arr []) with
    | .arr l => if l.isEmpty then .ok st else runFold toolCallItem st l
    | _ => .ok st
  | _ => .error .attributeErr

/-- Processing of one `data:` message by the `streamlit_app.py` copy. -/
def processMessageApp (st : SseState) (j : JValue) : Except PyErr SseState :=
  match textStep st j with
  | .error e => .error e
  | .ok st1 =>
    match actionsStepApp st1 j with
    | .error e => .error e
    | .ok st2 =>
      match partsStep st2 j with
      | .error e => .error e
      | .ok st3 => toolCallsStep st3 j

/-- Processing of one `data:` message by the `streamlit_components/utils.py`
copy. -/
def processMessageUtils (st : SseState) (j : JValue) : Except PyErr SseState :=
  match textStep st j with
  | .error e => .error e
  | .ok st1 =>
    match actionsStepUtils st1 j with
    | .error e => .error e
    | .ok st2 =>
      match partsStep st2 j with
      | .error e => .error e
      | .ok st3 => toolCallsStep st3 j

/-- The `data:`-delimited message strings of a response text:
`[msg.strip() for msg in response_text.strip().split("data:") if msg.strip()]`. -/
def sseMessages (text : String) : List String :=
  ((splitOnData (pyStripList text.data)).map pyStripList).filterMap
    fun cs => if cs.isEmpty then none else some (String.mk cs)

/-- The messages that decode as JSON (`json.loads` failures are skipped by
the `except json.JSONDecodeError: continue` of the source). -/
def decodedMessages (text : String) : List JValue :=
  (sseMessages text).filterMap loads

/-- The final `update_salesforce_crm` check and the construction of the
returned triple. -/
def finalizeSse (st : SseState) : SseResult :=
  ⟨st.assistantReply, st.toolOutputs,
   st.orderConfirmed || dictHasKey st.toolOutputs (.str "update_salesforce_crm")⟩

/-- Model of `parse_sse_response` from `streamlit_app.py`. -/
def parseSseApp (text : String) : Except PyErr SseResult :=
  match runFold processMessageApp initSse (decodedMessages text) with
  | .ok st => .ok (finalizeSse st)
  | .error e => .error e

/-- Model of `parse_sse_response` from `streamlit_components/utils.py`. -/
def parseSseUtils (text : String) : Except PyErr SseResult :=
  match runFold processMessageUtils initSse (decodedMessages text) with
  | .ok st => .ok (finalizeSse st)
  | .error e => .error e

/-! ### Database state and `operations.py` -/

/-- Truncation toward zero, as Python `int(float)` rounds. -/
def ratTrunc (q : ℚ) : Int :=
  q.num.tdiv (q.den : Int)

/-- Model of Python `int(s)` for a string: optional surrounding
whitespace, optional sign, decimal digits (digit-group underscores are not
modelled). -/
def parsePyInt (s : String) : Option Int :=
  let cs := pyStripList s.data
  let (sign, ds) : Int × List Char :=
    match cs with
    | '+' :: rest => (1, rest)
    | '-' :: rest => (-1, rest)
    | _ => (1, cs)
  if ds.isEmpty || !ds.all Char.isDigit then none
  else some (sign * (digitsToNat ds : Int))

/-- Model of Python `int(x)` on decoded JSON data (`none` models the
`ValueError`/`TypeError` cases). -/
def pyToInt : JValue → Option Int
  | .num q => some (ratTrunc q)
  | .str s => parsePyInt s
  | .bool b => some (if b then 1 else 0)
  | _ => none

/-- The quantity coercion of `modify_cart`: `int(quantity)`, with any
failure or non-positive result replaced by 1. -/
def coerceQuantity (v : JValue) : Int :=
  match pyToInt v with
  | some n => if n ≤ 0 then 1 else n
  | none => 1

/-- A row of the `products` table (the nullable `image_url` column is
omitted; it never participates in the embedded operations). -/
structure Product where
  id : String
  name : String
  description : String
  price : ℚ
  category : String
  sport : String
deriving DecidableEq

/-- A row of the `cart_items` table (the surrogate integer key and the
`date_added` timestamp are omitted; row identity is list position). -/
structure CartItemRow where
  customer_id : String
  product_id : String
  quantity : Int
deriving DecidableEq

/-- A row of the `orders` table (the `order_date` timestamp and nullable
`discount_applied` are omitted). -/
structure OrderRow where
  id : String
  customer_id : String
  status : String
  total : ℚ
deriving DecidableEq

/-- A row of the `order_items` table (surrogate key omitted). -/
structure OrderItemRow where
  order_id : String
  product_id : String
  quantity : Int
  price : ℚ
deriving DecidableEq

/-- The database state visible to the embedded cart/order operations. -/
structure Db where
  products : List Product
  cartItems : List CartItemRow
  orders : List OrderRow
  orderItems : List OrderItemRow
deriving DecidableEq

/-- One entry of the list returned under `"cart"`. -/
structure CartLine where
  product_id : String
  name : String
  quantity : Int
  price : ℚ
deriving DecidableEq

/-- The return value of `access_cart_information` in `operations.py`. -/
structure CartInfo where
  cart : List CartLine
  subtotal : ℚ
deriving DecidableEq

def productFind (db : Db) (pid : String) : Option Product :=
  db.products.find? fun p => p.id == pid

/-- Model of `access_cart_information` from `operations.py`: the cart
items of the customer joined with `products` (an inner join: rows without
a matching product are dropped), and the subtotal
`sum(item["price"] * item["quantity"] for item in items)`. -/
def access_cart_information (db : Db) (customerId : String) : CartInfo :=
  let lines := db.cartItems.filterMap fun ci =>
    if ci.customer_id == customerId then
      match productFind db ci.product_id with
      | some p => some ⟨p.id, p.name, ci.quantity, p.price⟩
      | none => none
    else none
  ⟨lines, (lines.map fun l => l.price * (l.quantity : ℚ)).sum⟩

/-- Increment the quantity of the first cart row of the customer/product
pair (`query(...).first()` followed by `existing_item.quantity += quantity`). -/
def bumpFirst (cust pid : String) (q : Int) : List CartItemRow → List CartItemRow
  | [] => []
  | ci :: rest =>
    if ci.customer_id == cust && ci.product_id == pid then
      { ci with quantity := ci.quantity + q } :: rest
    else ci :: bumpFirst cust pid q rest

def cartHas (db : Db) (cust pid : String) : Bool :=
  db.cartItems.any fun ci => ci.customer_id == cust && ci.product_id == pid

/-- One iteration of the `items_to_add` loop of `modify_cart`: quantity
coercion, product-existence check (a missing product is skipped), then
either an increment of the existing row or a new row.  The Bool is the
`items_added` contribution.  A non-string `product_id` matches no product
row, so the item is skipped. -/
def addCartItem (db : Db) (cust : String) (item : List (String × JValue)) : Db × Bool :=
  let pid := jget item "product_id"
  let q := coerceQuantity (objGetD item "quantity" (.num 1))
  match pid with
  | .str pidS =>
    match productFind db pidS with
    | none => (db, false)
    | some _ =>
      if cartHas db cust pidS then
        ({ db with cartItems := bumpFirst cust pidS q db.cartItems }, true)
      else
        ({ db with cartItems := db.cartItems ++ [⟨cust, pidS, q⟩] }, true)
  | _ => (db, false)

/-- One iteration of the `items_to_remove` loop of `modify_cart`: delete
every cart row of the customer/product pair; the Bool is `result > 0`. -/
def removeCartItem (db : Db) (cust : String) (item : List (String × JValue)) : Db × Bool :=
  match jget item "product_id" with
  | .str pidS =>
    let hit := db.cartItems.any fun ci => ci.customer_id == cust && ci.product_id == pidS
    ({ db with
       cartItems := db.cartItems.filter fun ci =>
         !(ci.customer_id == cust && ci.product_id == pidS) }, hit)
  | _ => (db, false)

/-- Model of `modify_cart` from `operations.py` (items are the Python
dicts of `items_to_add`/`items_to_remove`). -/
def modify_cart (db : Db) (cust : String)
    (itemsToAdd itemsToRemove : List (List (String × JValue))) : Db × JValue :=
  let r1 := itemsToAdd.foldl
    (fun acc item =>
      let s := addCartItem acc.1 cust item
      (s.1, acc.2 || s.2))
    (db, false)
  let r2 := itemsToRemove.foldl
    (fun acc item =>
      let s := removeCartItem acc.1 cust item
      (s.1, acc.2 || s.2))
    (r1.1, false)
  (r2.1,
   .obj [("status", .str "success"), ("message", .str "Cart updated successfully."),
         ("items_added", .bool r1.2), ("items_removed", .bool r2.2)])

/-- Model of `create_order` from `operations.py`.  The generated order id
(`ORD-` plus a UUID fragment) and `datetime.now()` date are taken as
parameters. -/
def create_order (db : Db) (cust : String) (orderId : String) (today : String) :
    Db × JValue :=
  let info := access_cart_information db cust
  if info.cart.isEmpty then
    (db, .obj [("status", .str "error"), ("message", .str "Cart is empty")])
  else
    let db2 := { db with
      orders := db.orders ++ [⟨orderId, cust, "Processing", info.subtotal⟩],
      orderItems := db.orderItems ++
        info.cart.map fun l => OrderItemRow.mk orderId l.product_id l.quantity l.price,
      cartItems := db.cartItems.filter fun ci => !(ci.customer_id == cust) }
    (db2,
     .obj [("status", .str "success"), ("order_id", .str orderId),
           ("order_date", .str today),
           ("items", .arr (info.cart.map fun l =>
             .obj [("product_id", .str l.product_id), ("quantity", .num (l.quantity : ℚ))])),
           ("order_total", .num info.subtotal)])

/-! ### Tool wrappers of `db_tools.py` -/

/-- The hardcoded fallback cart of `access_cart_information` in
`db_tools.py`. -/
def mockCart : JValue :=
  .obj [("cart", .arr
      [.obj [("product_id", .str "RUN-S05"), ("name", .str "CloudRunner Running Shoes"),
             ("quantity", .num 1), ("price", .num (13999 / 100 : ℚ))],
       .obj [("product_id", .str "RUN-A01"), ("name", .str "Running Socks (3-pack)"),
             ("quantity", .num 1), ("price", .num (1576 / 100 : ℚ))]]),
    ("subtotal", .num (15575 / 100 : ℚ))]

/-- Model of the tool `access_cart_information` in `db_tools.py`: the
underlying database call either returns cart data or raises (modelled by
`Except String`, the message being `str(e)`); any exception is caught and
replaced by the mock cart, so the wrapper itself is total. -/
def toolAccessCartInformation (dbResult : Except String JValue) : JValue :=
  match dbResult with
  | .ok cartData => cartData
  | .error _ => mockCart

/-- Model of the tool `modify_cart` in `db_tools.py`: any exception from
the underlying database call is caught and replaced by a success
dictionary built from the truthiness of the argument lists. -/
def toolModifyCart (itemsToAdd itemsToRemove : List JValue)
    (dbResult : Except String JValue) : JValue :=
  match dbResult with
  | .ok r => r
  | .error _ =>
    .obj [("status", .str "success"), ("message", .str "Cart updated successfully."),
          ("items_added", .bool !itemsToAdd.isEmpty),
          ("items_removed", .bool !itemsToRemove.isEmpty)]

/-! ### `update_cart_display` and the agent endpoints of `streamlit_app.py` -/

/-- Model of `update_cart_display` from `streamlit_app.py`: the Bool is
the return value, the second component the resulting
`st.session_state.cart`. -/
def update_cart_display (cartData : JValue) (sessionCart : JValue) : Bool × JValue :=
  match cartData with
  | .obj f =>
    if objMem f "cart" then (true, jget f "cart") else (false, sessionCart)
  | .arr l => (true, .arr l)
  | .str s =>
    match loads s with
    | some (.obj f) =>
      if objMem f "cart" then (true, jget f "cart") else (false, sessionCart)
    | some (.arr l) => (true, .arr l)
    | _ => (false, sessionCart)
  | _ => (false, sessionCart)

/-- The shape condition of claim C10, written from the specification:
a dict containing a `"cart"` key, a list, or a string that parses as JSON
to one of those two shapes. -/
def cartShapeOk (cartData : JValue) : Bool :=
  match cartData with
  | .obj f => objMem f "cart"
  | .arr _ => true
  | .str s =>
    match loads s with
    | some (.obj f) => objMem f "cart"
    | some (.arr _) => true
    | _ => false
  | _ => false

/-- The extracted item list of claim C10, written from the specification. -/
def cartExtract (cartData : JValue) : JValue :=
  match cartData with
  | .obj f => jget f "cart"
  | .arr l => .arr l
  | .str s =>
    match loads s with
    | some (.obj f) => jget f "cart"
    | some (.arr l) => .arr l
    | _ => .null
  | _ => .null

/-- `AGENT_RUN_PATH` of `streamlit_app.py`. -/
def AgentRunPath : String := "/run_sse"

/-- `AGENT_SESSION_PATH_TEMPLATE.format(...)` of `streamlit_app.py`. -/
def sessionPath (appName userId sessionId : String) : String :=
  "/apps/" ++ appName ++ "/users/" ++ userId ++ "/sessions/" ++ sessionId

/-- The agent request paths issued while handling one user message
(`streamlit_app.py`, agent interaction logic): the session-creation POST
only when the session is not yet marked initialized, the `/run_sse` POST
for the message, and a second `/run_sse` POST for the explicit cart fetch
when the tool outputs carried no cart, the prompt suggests a cart change
and the message is not a system message. -/
def agentTurnPaths (sessionInited : Bool) (appName userId sessionId : String)
    (toolOutputsHaveCart cartNeedsRefresh isSystemMessage : Bool) : List String :=
  (if !sessionInited then [sessionPath appName userId sessionId] else [])
    ++ [AgentRunPath]
    ++ (if !toolOutputsHaveCart && (cartNeedsRefresh && !isSystemMessage) then
          [AgentRunPath]
        else [])

/-! ### The ORM schema of `models.py` -/

structure ForeignKeyDef where
  column : String
  refTable : String
  refColumn : String
deriving DecidableEq

structure TableDef where
  name : String
  columns : List String
  foreignKeys : List ForeignKeyDef
deriving DecidableEq

def addressesTable : TableDef :=
  ⟨"addresses", ["id", "customer_id", "street", "city", "state", "zip"],
   [⟨"customer_id", "customers", "id"⟩]⟩

def communicationPreferencesTable : TableDef :=
  ⟨"communication_preferences",
   ["id", "customer_id", "email", "sms", "push_notifications"],
   [⟨"customer_id", "customers", "id"⟩]⟩

def sportsProfilesTable : TableDef :=
  ⟨"sports_profiles",
   ["id", "customer_id", "preferred_sports", "skill_level", "favorite_teams",
    "interests", "activity_frequency"],
   [⟨"customer_id", "customers", "id"⟩]⟩

def customersTable : TableDef :=
  ⟨"customers",
   ["id", "account_number", "first_name", "last_name", "email", "phone_number",
    "customer_start_date", "loyalty_points", "preferred_store"], []⟩

def productsTable : TableDef :=
  ⟨"products",
   ["id", "name", "description", "price", "category", "sport", "image_url"], []⟩

def cartItemsTable : TableDef :=
  ⟨"cart_items", ["id", "customer_id", "product_id", "quantity", "date_added"],
   [⟨"customer_id", "customers", "id"⟩, ⟨"product_id", "products", "id"⟩]⟩

def ordersTable : TableDef :=
  ⟨"orders", ["id", "customer_id", "order_date", "status", "total", "discount_applied"],
   [⟨"customer_id", "customers", "id"⟩]⟩

def orderItemsTable : TableDef :=
  ⟨"order_items", ["id", "order_id", "product_id", "quantity", "price"],
   [⟨"order_id", "orders", "id"⟩, ⟨"product_id", "products", "id"⟩]⟩

def appointmentsTable : TableDef :=
  ⟨"appointments",
   ["id", "customer_id", "service_type", "date", "time_range", "details", "status"],
   [⟨"customer_id", "customers", "id"⟩]⟩

/-- The persistent schema of `models.py`, in source order. -/
def schemaTables : List TableDef :=
  [addressesTable, communicationPreferencesTable, sportsProfilesTable,
   customersTable, productsTable, cartItemsTable, ordersTable,
   orderItemsTable, appointmentsTable]

/-! ### Observation helpers used to state the claims -/

/-- Field access on an object-shaped result (missing key or non-object
yields `null`). -/
def jvField (j : JValue) (k : String) : JValue :=
  match j with
  | .obj f => jget f k
  | _ => .null

/-- The text extracted from a message, ignoring error outcomes (under a
successful parse no error occurs). -/
def textOk (j : JValue) : Option String :=
  match textExtract j with
  | .ok o => o
  | .error _ => none

/-- Whether a message's extracted assistant reply contains one of the
order-confirmation phrases. -/
def msgPhraseHit (j : JValue) : Bool :=
  match textOk j with
  | some s => phraseHit s
  | none => false

/-- The tool name recovered by the `tool_code`/`tool_result` strategy from
a message: `actions` (a dict, or the first element of a non-empty list)
has a truthy string `tool_code` matching `(\w+)\(` and a truthy string
`tool_result`. -/
def toolCodeName (j : JValue) : Option String :=
  match j with
  | .obj f =>
    match unwrapActions (jget f "actions") with
    | .ok (.obj af) =>
      let tc := jget af "tool_code"
      let tr := jget af "tool_result"
      if tc.truthy && tr.truthy then
        match tc, tr with
        | .str code, .str _ => findToolName code.data
        | _, _ => none
      else none
    | _ => none
  | _ => none

/-- The condition under which the `actions.function_call` strategy of the
`streamlit_app.py` copy stores the `access_cart_information` result: the
call names `access_cart_information`, the arguments (default `"\x7b\x7d"`)
are not an unparsable string, and `actions.function_result` (default
`"\x7b\x7d"`) is truthy. -/
def fnCallCartShape (j : JValue) : Bool :=
  match j with
  | .obj f =>
    match unwrapActions (jget f "actions") with
    | .ok (.obj af) =>
      match jget af "function_call" with
      | .obj fcf =>
        (jget fcf "name").beq (.str "access_cart_information") &&
        (match objGetD fcf "arguments" (.str "\x7b\x7d") with
         | .str s => (loads s).isSome
         | _ => true) &&
        (objGetD af "function_result" (.str "\x7b\x7d")).truthy
      | _ => false
    | _ => false
  | _ => false

/-- Whether `actions.function_call` names `access_cart_information` at all:
outside this shape the two copies of `parse_sse_response` execute
identical code. -/
def msgHasCartFnCall (j : JValue) : Bool :=
  match j with
  | .obj f =>
    match unwrapActions (jget f "actions") with
    | .ok (.obj af) =>
      match jget af "function_call" with
      | .obj fcf => (jget fcf "name").beq (.str "access_cart_information")
      | _ => false
    | _ => false
  | _ => false

/-- A message carrying an `actions.function_call` for tool `n` together
with a truthy `actions.function_result`: the shape from which claim C1
expects a recovered result for `n`. -/
def msgFnCallWithResult (j : JValue) (n : String) : Bool :=
  match j with
  | .obj f =>
    match unwrapActions (jget f "actions") with
    | .ok (.obj af) =>
      match jget af "function_call" with
      | .obj fcf =>
        (jget fcf "name").beq (.str n) && (jget af "function_result").truthy
      | _ => false
    | _ => false
  | _ => false

/-- Whether a part has a truthy `functionCall` (which reassigns the
`tool_name` local). -/
def partFnCallTruthy (p : JValue) : Bool :=
  match p with
  | .obj pf => (jget pf "functionCall").truthy
  | _ => false

/-- The name assigned by a part's truthy `functionCall` dict, when it is a
string. -/
def partFnCallName (p : JValue) : Option String :=
  match p with
  | .obj pf =>
    match jget pf "functionCall" with
    | .obj fcf =>
      if (JValue.obj fcf).truthy then
        match jget fcf "name" with
        | .str s => some s
        | _ => none
      else none
    | _ => none
  | _ => none

/-- Whether a part has a truthy `functionResponse` dict with truthy
response data (`response`, `result` or `content`). -/
def partRespData (p : JValue) : Bool :=
  match p with
  | .obj pf =>
    match jget pf "functionResponse" with
    | .obj frf =>
      (JValue.obj frf).truthy &&
      ((jget frf "response").truthy || (jget frf "result").truthy ||
       (jget frf "content").truthy)
    | _ => false
  | _ => false

/-- A truthy `functionResponse` with data occurs before any truthy
`functionCall` in the given parts. -/
def respFirst : List JValue → Bool
  | [] => false
  | p :: rest =>
    if partFnCallTruthy p then false
    else if partRespData p then true
    else respFirst rest

/-- Some part issues a `functionCall` naming the (nonempty) tool `n`, and
a `functionResponse` with data follows, in the same part or later, before
any other truthy `functionCall`. -/
def partsRecover (n : String) : List JValue → Bool
  | [] => false
  | p :: rest =>
    (partFnCallName p == some n && n != "" && (partRespData p || respFirst rest))
    || partsRecover n rest

/-- The parts list of a message, when the message has dict content with a
list `parts`. -/
def msgParts (j : JValue) : Option (List JValue) :=
  match j with
  | .obj f =>
    match jget f "content" with
    | .obj cf =>
      match objGetD cf "parts" (.arr []) with
      | .arr l => some l
      | _ => none
    | _ => none
  | _ => none

/-- The `content.parts[].functionCall/functionResponse` recovery condition
of a whole message. -/
def msgPartsRecover (j : JValue) (n : String) : Bool :=
  match msgParts j with
  | some l => partsRecover n l
  | none => false

/-- One element of `tool_calls[]` that stores a result under the truthy
string name `n`. -/
def toolCallPred (n : String) (tc : JValue) : Bool :=
  match tc with
  | .obj tcf =>
    (jget tcf "name").beq (.str n) && n != "" && (jget tcf "response").truthy
  | _ => false

/-- The `tool_calls[]` recovery condition: some dict element with the
truthy string name `n` and a truthy response. -/
def msgToolCallsRecover (j : JValue) (n : String) : Bool :=
  match j with
  | .obj f =>
    match objGetD f "tool_calls" (.arr []) with
    | .arr l => l.any (toolCallPred n)
    | _ => false
  | _ => false

/-- The cart-row invariant of claim C7: every cart row has a positive
quantity and references an existing product. -/
def CartInv (db : Db) : Prop :=
  ∀ ci ∈ db.cartItems, 1 ≤ ci.quantity ∧ (productFind db ci.product_id).isSome = true

/-- The number of cart rows of a customer/product pair. -/
def rowsFor (db : Db) (cust pid : String) : Nat :=
  db.cartItems.countP fun ci => ci.customer_id == cust && ci.product_id == pid

/-- The total quantity over the cart rows of a customer/product pair. -/
def qtyFor (db : Db) (cust pid : String) : Int :=
  ((db.cartItems.filter fun ci => ci.customer_id == cust && ci.product_id == pid).map
    CartItemRow.quantity).sum

/-- A small concrete database used by witnesses: one product `P1` priced
10 and one cart row of customer `c1` with quantity 2. -/
def witnessDb : Db :=
  ⟨[⟨"P1", "Ball", "d", 10, "c", "s"⟩], [⟨"c1", "P1", 2⟩], [], []⟩

/-- How every non-text step of `parse_sse_response` relates its output
state to its input state: the assistant reply and the confirmation flag
are untouched, and keys of `tool_outputs` are never removed. -/
def StepExtends (st st' : SseState) : Prop :=
  st'.assistantReply = st.assistantReply ∧
  st'.orderConfirmed = st.orderConfirmed ∧
  ∀ k, dictHasKey st.toolOutputs k = true → dictHasKey st'.toolOutputs k = true

/-- Concrete SSE input: an `actions.function_call` for
`access_cart_information` with a JSON-string `function_result` (the shape
on which the two `parse_sse_response` copies differ). -/
def cartFnCallInput : String :=
  "data: \x7b\"actions\": \x7b\"function_call\": \x7b\"name\": \"access_cart_information\"\x7d, \"function_result\": \"\x7b\\\"cart\\\": []\x7d\"\x7d\x7d"

/-- Concrete SSE input: an `actions.function_call` for `schedule_service`
with a JSON-string `function_result` (a shape claim C1 expects to be
recovered, but which the code ignores). -/
def otherFnCallInput : String :=
  "data: \x7b\"actions\": \x7b\"function_call\": \x7b\"name\": \"schedule_service\"\x7d, \"function_result\": \"\x7b\\\"status\\\": \\\"ok\\\"\x7d\"\x7d\x7d"

/-- Concrete SSE input: a `tool_code`/`tool_result` message for
`modify_cart`. -/
def toolCodeInput : String :=
  "data: \x7b\"actions\": \x7b\"tool_code\": \"modify_cart(a)\", \"tool_result\": \"\x7b\\\"ok\\\": true\x7d\"\x7d\x7d"

/-- Concrete SSE input: a plain text reply containing an
order-confirmation phrase. -/
def confirmTextInput : String :=
  "data: \x7b\"content\": \x7b\"parts\": [\x7b\"text\": \"Order confirmed!\"\x7d]\x7d\x7d"

/-! ## Theorems -/

theorem ratTrunc_intCast (n : Int) : ratTrunc (n : ℚ) = n := by
  simp [ratTrunc, Int.tdiv_one]

theorem coerceQuantity_intCast (n : Int) (h : 1 ≤ n) :
    coerceQuantity (.num (n : ℚ)) = n := by
  simp only [coerceQuantity, pyToInt, ratTrunc_intCast]
  rw [if_neg (by omega)]

/-- C4: adding an existing product with a valid quantity `q ≥ 1` to an
empty cart yields a cart with exactly that one line and subtotal
`price × q`; and in general the subtotal returned by
`access_cart_information` is the sum of `price × quantity` over the
returned cart lines. -/
theorem c4_cart_add_subtotal :
    (∀ (db : Db) (cust pid : String) (q : Int) (prod : Product),
      (∀ ci ∈ db.cartItems, ci.customer_id ≠ cust) →
      productFind db pid = some prod →
      1 ≤ q →
      access_cart_information
        ((modify_cart db cust
          [[("product_id", .str pid), ("quantity", .num (q : ℚ))]] []).1) cust =
        ⟨[⟨pid, prod.name, q, prod.price⟩], prod.price * (q : ℚ)⟩) ∧
    (∀ (db : Db) (cust : String),
      (access_cart_information db cust).subtotal =
        ((access_cart_information db cust).cart.map fun l =>
          l.price * (l.quantity : ℚ)).sum) := by
  constructor
  · intro db cust pid q prod hempty hfind hq
    have hpid : prod.id = pid := by
      have := List.find?_some hfind
      simpa using this
    have hno : cartHas db cust pid = false := by
      simp only [cartHas, List.any_eq_false]
      intro ci hci
      simp [hempty ci hci]
    have hadd : (addCartItem db cust
        [("product_id", .str pid), ("quantity", .num (q : ℚ))]).1 =
        { db with cartItems := db.cartItems ++ [⟨cust, pid, coerceQuantity (.num (q : ℚ))⟩] } := by
      simp only [addCartItem, jget, objGet, objGetD]
      simp [hfind, hno]
    have hmod : (modify_cart db cust
        [[("product_id", .str pid), ("quantity", .num (q : ℚ))]] []).1 =
        { db with cartItems := db.cartItems ++ [⟨cust, pid, q⟩] } := by
      simp only [modify_cart, List.foldl]
      rw [hadd, coerceQuantity_intCast q hq]
    rw [hmod]
    have hnil : (db.cartItems.filterMap fun ci =>
        if ci.customer_id == cust then
          match productFind db ci.product_id with
          | some p => some (CartLine.mk p.id p.name ci.quantity p.price)
          | none => none
        else none) = [] := by
      rw [List.filterMap_eq_nil_iff]
      intro ci hci
      simp [hempty ci hci]
    have hpf : ∀ pid2, productFind
        { db with cartItems := db.cartItems ++ [⟨cust, pid, q⟩] } pid2 =
        productFind db pid2 := fun _ => rfl
    simp only [access_cart_information, List.filterMap_append, hpf]
    rw [hnil]
    simp [hfind, hpid]
  · intro db cust
    rfl

/-- Witness for C4 at a concrete database: one product `P1` priced 10, an
empty cart, adding quantity 2. -/
theorem c4_cart_add_subtotal_witness :
    access_cart_information
      ((modify_cart (Db.mk [⟨"P1", "Ball", "d", 10, "c", "s"⟩] [] [] []) "c1"
        [[("product_id", .str "P1"), ("quantity", .num ((2 : Int) : ℚ))]] []).1) "c1" =
      ⟨[⟨"P1", "Ball", 2, 10⟩],
       (Product.mk "P1" "Ball" "d" 10 "c" "s").price * ((2 : Int) : ℚ)⟩ :=
  c4_cart_add_subtotal.1 (Db.mk [⟨"P1", "Ball", "d", 10, "c", "s"⟩] [] [] []) "c1" "P1" 2
    ⟨"P1", "Ball", "d", 10, "c", "s"⟩ (by simp) (by rfl) (by decide)

/-- C5: `create_order` succeeds exactly when the customer's cart is
non-empty; on success it appends exactly one order carrying the cart's
subtotal as total, appends one order item per cart line with the same
product id, quantity and price, leaves the customer's cart empty, and
reports the subtotal as `order_total`; on an empty cart it returns the
fixed error dictionary and leaves the database unchanged. -/
theorem c5_create_order_spec (db : Db) (cust orderId today : String) :
    ((jvField (create_order db cust orderId today).2 "status" = .str "success") ↔
      (access_cart_information db cust).cart ≠ []) ∧
    ((access_cart_information db cust).cart = [] →
      create_order db cust orderId today =
        (db, .obj [("status", .str "error"), ("message", .str "Cart is empty")])) ∧
    ((access_cart_information db cust).cart ≠ [] →
      (create_order db cust orderId today).1.orders =
        db.orders ++
          [⟨orderId, cust, "Processing", (access_cart_information db cust).subtotal⟩] ∧
      (create_order db cust orderId today).1.orderItems =
        db.orderItems ++ (access_cart_information db cust).cart.map
          (fun l => OrderItemRow.mk orderId l.product_id l.quantity l.price) ∧
      (create_order db cust orderId today).1.products = db.products ∧
      jvField (create_order db cust orderId today).2 "order_total" =
        .num (access_cart_information db cust).subtotal ∧
      (access_cart_information (create_order db cust orderId today).1 cust).cart = []) := by
  by_cases h : (access_cart_information db cust).cart = []
  · have hE : (access_cart_information db cust).cart.isEmpty = true := by
      simp [h]
    have hres : create_order db cust orderId today =
        (db, .obj [("status", .str "error"), ("message", .str "Cart is empty")]) := by
      simp only [create_order]
      rw [if_pos hE]
    refine ⟨?_, fun _ => hres, fun hne => absurd h hne⟩
    rw [hres]
    simp [jvField, jget, objGet, h]
  · have hE : (access_cart_information db cust).cart.isEmpty = false := by
      simp [h]
    have hres : create_order db cust orderId today =
        ({ db with
            orders := db.orders ++
              [⟨orderId, cust, "Processing", (access_cart_information db cust).subtotal⟩],
            orderItems := db.orderItems ++
              (access_cart_information db cust).cart.map
                (fun l => OrderItemRow.mk orderId l.product_id l.quantity l.price),
            cartItems := db.cartItems.filter fun ci => !(ci.customer_id == cust) },
         .obj [("status", .str "success"), ("order_id", .str orderId),
               ("order_date", .str today),
               ("items", .arr ((access_cart_information db cust).cart.map fun l =>
                 .obj [("product_id", .str l.product_id),
                       ("quantity", .num (l.quantity : ℚ))])),
               ("order_total", .num (access_cart_information db cust).subtotal)]) := by
      simp only [create_order]
      rw [if_neg (by simp [hE])]
    refine ⟨?_, fun he => absurd he h, fun _ => ?_⟩
    · rw [hres]
      simp [jvField, jget, objGet, h]
    · rw [hres]
      refine ⟨rfl, rfl, rfl, ?_, ?_⟩
      · simp [jvField, jget, objGet]
      · simp only [access_cart_information]
        rw [List.filterMap_eq_nil_iff]
        intro ci hci
        rw [List.mem_filter] at hci
        simp only [Bool.not_eq_true'] at hci
        simp [hci.2]

/-- Witness for C5 at a concrete database with a non-empty cart. -/
theorem c5_create_order_spec_witness :
    (create_order witnessDb "c1" "OID" "D").1.orders =
      witnessDb.orders ++
        [⟨"OID", "c1", "Processing", (access_cart_information witnessDb "c1").subtotal⟩] ∧
    (create_order witnessDb "c1" "OID" "D").1.orderItems =
      witnessDb.orderItems ++ (access_cart_information witnessDb "c1").cart.map
        (fun l => OrderItemRow.mk "OID" l.product_id l.quantity l.price) ∧
    (create_order witnessDb "c1" "OID" "D").1.products = witnessDb.products ∧
    jvField (create_order witnessDb "c1" "OID" "D").2 "order_total" =
      .num (access_cart_information witnessDb "c1").subtotal ∧
    (access_cart_information (create_order witnessDb "c1" "OID" "D").1 "c1").cart = [] :=
  (c5_create_order_spec witnessDb "c1" "OID" "D").2.2 (by decide)

theorem coerceQuantity_pos (v : JValue) : 1 ≤ coerceQuantity v := by
  unfold coerceQuantity
  cases h : pyToInt v with
  | none => simp
  | some n =>
    dsimp only
    split <;> omega

theorem bumpFirst_mem {cust pid : String} {q : Int} :
    ∀ {l : List CartItemRow} {ci2 : CartItemRow}, ci2 ∈ bumpFirst cust pid q l →
      ci2 ∈ l ∨ ∃ ci ∈ l, ci2 = { ci with quantity := ci.quantity + q } := by
  intro l
  induction l with
  | nil => intro ci2 h; simp [bumpFirst] at h
  | cons head tail ih =>
    intro ci2 h
    rw [bumpFirst] at h
    by_cases hc : (head.customer_id == cust && head.product_id == pid) = true
    · rw [if_pos hc] at h
      rcases List.mem_cons.mp h with h1 | h1
      · exact Or.inr ⟨head, List.mem_cons_self _ _, h1⟩
      · exact Or.inl (List.mem_cons_of_mem _ h1)
    · rw [if_neg hc] at h
      rcases List.mem_cons.mp h with h1 | h1
      · exact Or.inl (h1 ▸ List.mem_cons_self _ _)
      · rcases ih h1 with h2 | ⟨ci, hci, he⟩
        · exact Or.inl (List.mem_cons_of_mem _ h2)
        · exact Or.inr ⟨ci, List.mem_cons_of_mem _ hci, he⟩

theorem addCartItem_inv {db : Db} {cust : String} {item : List (String × JValue)}
    (h : CartInv db) : CartInv (addCartItem db cust item).1 := by
  unfold addCartItem
  cases hp : jget item "product_id" with
  | str pidS =>
    dsimp only
    cases hf : productFind db pidS with
    | none => exact h
    | some prod =>
      dsimp only
      by_cases hc : cartHas db cust pidS = true
      · rw [if_pos hc]
        intro ci2 hci2
        rcases bumpFirst_mem hci2 with h1 | ⟨ci, hci, he⟩
        · exact h ci2 h1
        · subst he
          refine ⟨?_, (h ci hci).2⟩
          have h1 := (h ci hci).1
          have h2 := coerceQuantity_pos (objGetD item "quantity" (.num 1))
          show 1 ≤ ci.quantity + coerceQuantity (objGetD item "quantity" (.num 1))
          omega
      · rw [if_neg hc]
        intro ci2 hci2
        rcases List.mem_append.mp hci2 with h1 | h1
        · exact h ci2 h1
        · rcases List.mem_singleton.mp h1 with rfl
          refine ⟨coerceQuantity_pos _, ?_⟩
          show (productFind db pidS).isSome = true
          simp [hf]
  | null => exact h
  | bool b => exact h
  | num q2 => exact h
  | arr l => exact h
  | obj f => exact h

theorem removeCartItem_inv {db : Db} {cust : String} {item : List (String × JValue)}
    (h : CartInv db) : CartInv (removeCartItem db cust item).1 := by
  unfold removeCartItem
  cases hp : jget item "product_id" with
  | str pidS =>
    intro ci hci
    rw [List.mem_filter] at hci
    exact h ci hci.1
  | null => exact h
  | bool b => exact h
  | num q2 => exact h
  | arr l => exact h
  | obj f => exact h

theorem foldlAdd_inv (cust : String) :
    ∀ (items : List (List (String × JValue))) (acc : Db × Bool), CartInv acc.1 →
      CartInv (items.foldl (fun acc item =>
        let s := addCartItem acc.1 cust item
        (s.1, acc.2 || s.2)) acc).1 := by
  intro items
  induction items with
  | nil => intro acc h; exact h
  | cons it rest ih => intro acc h; exact ih _ (addCartItem_inv h)

theorem foldlRemove_inv (cust : String) :
    ∀ (items : List (List (String × JValue))) (acc : Db × Bool), CartInv acc.1 →
      CartInv (items.foldl (fun acc item =>
        let s := removeCartItem acc.1 cust item
        (s.1, acc.2 || s.2)) acc).1 := by
  intro items
  induction items with
  | nil => intro acc h; exact h
  | cons it rest ih => intro acc h; exact ih _ (removeCartItem_inv h)

theorem bumpFirst_length (cust pid : String) (q : Int) :
    ∀ l : List CartItemRow, (bumpFirst cust pid q l).length = l.length := by
  intro l
  induction l with
  | nil => rfl
  | cons head tail ih =>
    rw [bumpFirst]
    split <;> simp [ih]

theorem bumpFirst_countP (cust pid : String) (q : Int) :
    ∀ l : List CartItemRow,
      ((bumpFirst cust pid q l).countP fun ci =>
        ci.customer_id == cust && ci.product_id == pid) =
      (l.countP fun ci => ci.customer_id == cust && ci.product_id == pid) := by
  intro l
  induction l with
  | nil => rfl
  | cons head tail ih =>
    rw [bumpFirst]
    by_cases hc : (head.customer_id == cust && head.product_id == pid) = true
    · rw [if_pos hc]
      rw [List.countP_cons, List.countP_cons]
    · rw [if_neg hc]
      rw [List.countP_cons, List.countP_cons, ih]

theorem bumpFirst_qtySum (cust pid : String) (q : Int) :
    ∀ l : List CartItemRow,
      (l.any fun ci => ci.customer_id == cust && ci.product_id == pid) = true →
      (((bumpFirst cust pid q l).filter fun ci =>
          ci.customer_id == cust && ci.product_id == pid).map CartItemRow.quantity).sum =
      ((l.filter fun ci =>
          ci.customer_id == cust && ci.product_id == pid).map CartItemRow.quantity).sum + q := by
  intro l
  induction l with
  | nil => intro h; simp at h
  | cons head tail ih =>
    intro h
    rw [bumpFirst]
    by_cases hc : (head.customer_id == cust && head.product_id == pid) = true
    · rw [if_pos hc]
      rw [List.filter_cons, List.filter_cons]
      simp only [hc, if_pos]
      simp only [List.map_cons, List.sum_cons]
      ring
    · rw [if_neg hc]
      rw [List.filter_cons, List.filter_cons]
      simp only [hc]
      simp only [Bool.false_eq_true, if_neg, ite_false]
      have htail : (tail.any fun ci => ci.customer_id == cust && ci.product_id == pid) = true := by
        rw [List.any_cons] at h
        simp only [hc, Bool.false_or] at h
        exact h
      exact ih htail

/-- C7: `modify_cart` preserves the invariant that every cart row has
quantity at least 1 and references an existing product; a quantity that
does not parse as an integer or is non-positive is coerced to 1; adding a
product already in the cart keeps the number of rows (incrementing the
existing row's total quantity by the coerced amount) instead of creating
a second row; and an item whose product does not exist is skipped, leaving
the database unchanged. -/
theorem c7_cart_invariant :
    (∀ (db : Db) (cust : String) (itemsToAdd itemsToRemove : List (List (String × JValue))),
      CartInv db → CartInv (modify_cart db cust itemsToAdd itemsToRemove).1) ∧
    (∀ v : JValue, 1 ≤ coerceQuantity v) ∧
    (∀ v : JValue,
      (pyToInt v = none ∨ ∃ n, pyToInt v = some n ∧ n ≤ 0) → coerceQuantity v = 1) ∧
    (∀ (db : Db) (cust : String) (item : List (String × JValue)) (pidS : String),
      jget item "product_id" = .str pidS →
      (productFind db pidS).isSome = true →
      cartHas db cust pidS = true →
      (addCartItem db cust item).1.cartItems.length = db.cartItems.length ∧
      rowsFor (addCartItem db cust item).1 cust pidS = rowsFor db cust pidS ∧
      qtyFor (addCartItem db cust item).1 cust pidS =
        qtyFor db cust pidS + coerceQuantity (objGetD item "quantity" (.num 1))) ∧
    (∀ (db : Db) (cust : String) (item : List (String × JValue)) (pidS : String),
      jget item "product_id" = .str pidS →
      productFind db pidS = none →
      addCartItem db cust item = (db, false)) := by
  refine ⟨?_, coerceQuantity_pos, ?_, ?_, ?_⟩
  · intro db cust itemsToAdd itemsToRemove h
    simp only [modify_cart]
    exact foldlRemove_inv cust itemsToRemove _ (foldlAdd_inv cust itemsToAdd (db, false) h)
  · intro v hv
    unfold coerceQuantity
    rcases hv with h | ⟨n, hn, hle⟩
    · rw [h]
    · rw [hn]
      simp [hle]
  · intro db cust item pidS hp hf hc
    rcases Option.isSome_iff_exists.mp hf with ⟨prod, hprod⟩
    have ha : addCartItem db cust item =
        (Db.mk db.products
          (bumpFirst cust pidS
            (coerceQuantity (objGetD item "quantity" (.num 1))) db.cartItems)
          db.orders db.orderItems, true) := by
      unfold addCartItem
      rw [hp]
      dsimp only
      rw [hprod]
      dsimp only
      rw [if_pos hc]
    rw [ha]
    refine ⟨bumpFirst_length cust pidS _ db.cartItems, ?_, ?_⟩
    · exact bumpFirst_countP cust pidS _ db.cartItems
    · exact bumpFirst_qtySum cust pidS _ db.cartItems hc
  · intro db cust item pidS hp hf
    unfold addCartItem
    rw [hp]
    dsimp only
    rw [hf]

/-- Witness for C7: the invariant survives a `modify_cart` that adds the
existing product with a string quantity, on the concrete witness database. -/
theorem c7_cart_invariant_witness :
    CartInv (modify_cart witnessDb "c1"
      [[("product_id", .str "P1"), ("quantity", .str "3")]] []).1 :=
  c7_cart_invariant.1 witnessDb "c1"
    [[("product_id", .str "P1"), ("quantity", .str "3")]] []
    (by unfold CartInv; decide)

/-! ### Infrastructure lemmas for the SSE parse model -/

theorem dictHasKey_insert_mono {d : List (JValue × JValue)} {k : JValue} (k2 v : JValue)
    (h : dictHasKey d k = true) : dictHasKey (dictInsert d k2 v) k = true := by
  induction d with
  | nil => simp [dictHasKey] at h
  | cons p rest ih =>
    rw [dictHasKey, List.any_cons] at h
    rw [dictInsert]
    by_cases hb : p.1.beq k2 = true
    · rcases p with ⟨k0, v0⟩
      rw [if_pos hb]
      rw [dictHasKey, List.any_cons]
      exact h
    · rcases p with ⟨k0, v0⟩
      rw [if_neg hb]
      rw [dictHasKey, List.any_cons]
      rcases Bool.or_eq_true_iff.mp h with h1 | h1
      · rw [h1]; rfl
      · have h2 := ih h1
        rw [dictHasKey] at h2
        rw [h2]
        simp

theorem dictHasKey_insert_self {k : JValue} (hk : k.beq k = true)
    (d : List (JValue × JValue)) (v : JValue) :
    dictHasKey (dictInsert d k v) k = true := by
  induction d with
  | nil => simp [dictInsert, dictHasKey, hk]
  | cons p rest ih =>
    rcases p with ⟨k0, v0⟩
    rw [dictInsert]
    by_cases hb : k0.beq k = true
    · rw [if_pos hb]
      simp [dictHasKey, hb]
    · rw [if_neg hb]
      rw [dictHasKey, List.any_cons]
      rw [dictHasKey] at ih
      rw [ih]
      simp

theorem JValue.beq_str {j : JValue} {s : String} :
    j.beq (.str s) = true ↔ j = .str s := by
  cases j <;> simp [JValue.beq]

theorem JValue.beq_str_self (s : String) : (JValue.str s).beq (.str s) = true := by
  simp [JValue.beq]

theorem StepExtends.rfl (st : SseState) : StepExtends st st :=
  ⟨Eq.refl _, Eq.refl _, fun _ h => h⟩

theorem StepExtends.trans {a b c : SseState}
    (h1 : StepExtends a b) (h2 : StepExtends b c) : StepExtends a c :=
  ⟨h2.1.trans h1.1, h2.2.1.trans h1.2.1, fun k hk => h2.2.2 k (h1.2.2 k hk)⟩

theorem stepExtends_var (st : SseState) (v : Option JValue) :
    StepExtends st { st with toolNameVar := v } :=
  ⟨Eq.refl _, Eq.refl _, fun _ h => h⟩

theorem stepExtends_var_insert (st : SseState) (v : Option JValue) (k kv : JValue) :
    StepExtends st
      { st with toolNameVar := v, toolOutputs := dictInsert st.toolOutputs k kv } :=
  ⟨Eq.refl _, Eq.refl _, fun _ h => dictHasKey_insert_mono _ _ h⟩

theorem stepExtends_insert (st : SseState) (k kv : JValue) :
    StepExtends st { st with toolOutputs := dictInsert st.toolOutputs k kv } :=
  ⟨Eq.refl _, Eq.refl _, fun _ h => dictHasKey_insert_mono _ _ h⟩

/-- Splitting a `runFold` at an append. -/
theorem runFold_append (step : SseState → JValue → Except PyErr SseState)
    (l1 l2 : List JValue) :
    ∀ st, runFold step st (l1 ++ l2) =
      match runFold step st l1 with
      | .ok stm => runFold step stm l2
      | .error e => .error e := by
  induction l1 with
  | nil => intro st; rfl
  | cons j rest ih =>
    intro st
    rw [List.cons_append, runFold, runFold]
    cases step st j with
    | error e => rfl
    | ok st2 => exact ih st2

/-- A property preserved by every successful step is preserved by the fold. -/
theorem runFold_preserve {step : SseState → JValue → Except PyErr SseState}
    {P : SseState → Prop}
    (hstep : ∀ st j st', step st j = .ok st' → P st → P st') :
    ∀ (l : List JValue) (st st' : SseState),
      runFold step st l = .ok st' → P st → P st' := by
  intro l
  induction l with
  | nil => intro st st' h hp; rw [runFold] at h; cases h; exact hp
  | cons j rest ih =>
    intro st st' h hp
    rw [runFold] at h
    cases hs : step st j with
    | error e => rw [hs] at h; cases h
    | ok st2 =>
      rw [hs] at h
      exact ih st2 st' h (hstep st j st2 hs hp)

/-- If every successful step extends the state, so does the fold. -/
theorem runFold_extends {step : SseState → JValue → Except PyErr SseState}
    (hstep : ∀ st j st', step st j = .ok st' → StepExtends st st') :
    ∀ (l : List JValue) (st st' : SseState),
      runFold step st l = .ok st' → StepExtends st st' := by
  intro l
  induction l with
  | nil => intro st st' h; rw [runFold] at h; cases h; exact StepExtends.rfl st
  | cons j rest ih =>
    intro st st' h
    rw [runFold] at h
    cases hs : step st j with
    | error e => rw [hs] at h; cases h
    | ok st2 =>
      rw [hs] at h
      exact StepExtends.trans (hstep st j st2 hs) (ih st2 st' h)

/-- Accumulation of the confirmation flag over the fold. -/
theorem runFold_conf {step : SseState → JValue → Except PyErr SseState}
    (q : JValue → Bool)
    (hstep : ∀ st j st', step st j = .ok st' →
      st'.orderConfirmed = (st.orderConfirmed || q j)) :
    ∀ (l : List JValue) (st st' : SseState), runFold step st l = .ok st' →
      st'.orderConfirmed = (st.orderConfirmed || l.any q) := by
  intro l
  induction l with
  | nil => intro st st' h; rw [runFold] at h; cases h; simp
  | cons j rest ih =>
    intro st st' h
    rw [runFold] at h
    cases hs : step st j with
    | error e => rw [hs] at h; cases h
    | ok st2 =>
      rw [hs] at h
      rw [ih st2 st' h, hstep st j st2 hs, List.any_cons]
      rw [Bool.or_assoc]

/-- The assistant reply after the fold is the last extracted text. -/
theorem runFold_reply {step : SseState → JValue → Except PyErr SseState}
    (t : JValue → Option String)
    (hstep : ∀ st j st', step st j = .ok st' →
      st'.assistantReply = (t j).elim st.assistantReply some) :
    ∀ (l : List JValue) (st st' : SseState), runFold step st l = .ok st' →
      st'.assistantReply =
        l.foldl (fun acc j => (t j).elim acc some) st.assistantReply := by
  intro l
  induction l with
  | nil => intro st st' h; rw [runFold] at h; cases h; rfl
  | cons j rest ih =>
    intro st st' h
    rw [runFold] at h
    cases hs : step st j with
    | error e => rw [hs] at h; cases h
    | ok st2 =>
      rw [hs] at h
      rw [List.foldl_cons, ← hstep st j st2 hs]
      exact ih st2 st' h

/-- A property established by the step on some list member survives to the
end of the fold. -/
theorem runFold_establish (step : SseState → JValue → Except PyErr SseState)
    {P : SseState → Prop}
    (mono : ∀ st j st', step st j = .ok st' → P st → P st') (m : JValue)
    (est : ∀ st st', step st m = .ok st' → P st') :
    ∀ (l : List JValue) (st st' : SseState), m ∈ l →
      runFold step st l = .ok st' → P st' := by
  intro l
  induction l with
  | nil => intro st st' hm; cases hm
  | cons j rest ih =>
    intro st st' hm h
    rw [runFold] at h
    cases hs : step st j with
    | error e => rw [hs] at h; cases h
    | ok st2 =>
      rw [hs] at h
      rcases List.mem_cons.mp hm with rfl | hm2
      · exact runFold_preserve mono rest st2 st' h (est st st2 hs)
      · exact ih st2 st' hm2 h

theorem textStep_ok {st : SseState} {j : JValue} {st' : SseState}
    (h : textStep st j = .ok st') :
    st' = { st with
      assistantReply := (textOk j).elim st.assistantReply some,
      orderConfirmed := st.orderConfirmed || msgPhraseHit j } := by
  unfold textStep at h
  cases he : textExtract j with
  | error e => rw [he] at h; cases h
  | ok o =>
    rw [he] at h
    cases o with
    | none =>
      cases h
      have ht : textOk j = none := by unfold textOk; rw [he]
      have hm : msgPhraseHit j = false := by unfold msgPhraseHit; rw [ht]
      rw [ht, hm]
      simp
    | some s =>
      cases h
      have ht : textOk j = some s := by unfold textOk; rw [he]
      have hm : msgPhraseHit j = phraseHit s := by unfold msgPhraseHit; rw [ht]
      rw [ht, hm]
      rfl

theorem toolCodeStep_extends {st : SseState} {af : List (String × JValue)} {st' : SseState}
    (h : toolCodeStep st af = .ok st') : StepExtends st st' := by
  unfold toolCodeStep at h
  dsimp only at h
  repeat' split at h
  all_goals cases h
  all_goals first
    | exact StepExtends.rfl _
    | exact stepExtends_var_insert _ _ _ _

theorem fnCallStepApp_extends (st : SseState) (af : List (String × JValue)) :
    StepExtends st (fnCallStepApp st af) := by
  unfold fnCallStepApp
  dsimp only
  repeat' split
  all_goals first
    | exact StepExtends.rfl _
    | exact stepExtends_var _ _
    | exact stepExtends_var_insert _ _ _ _

theorem fnCallStepUtils_extends (st : SseState) (af : List (String × JValue)) :
    StepExtends st (fnCallStepUtils st af) := by
  unfold fnCallStepUtils
  repeat' split
  all_goals first
    | exact StepExtends.rfl _
    | exact stepExtends_var _ _

theorem actionsStepApp_extends {st : SseState} {j : JValue} {st' : SseState}
    (h : actionsStepApp st j = .ok st') : StepExtends st st' := by
  unfold actionsStepApp at h
  repeat' split at h
  all_goals cases h
  all_goals first
    | exact StepExtends.rfl _
    | exact StepExtends.trans (toolCodeStep_extends (by assumption))
        (fnCallStepApp_extends _ _)

theorem actionsStepUtils_extends {st : SseState} {j : JValue} {st' : SseState}
    (h : actionsStepUtils st j = .ok st') : StepExtends st st' := by
  unfold actionsStepUtils at h
  repeat' split at h
  all_goals cases h
  all_goals first
    | exact StepExtends.rfl _
    | exact StepExtends.trans (toolCodeStep_extends (by assumption))
        (fnCallStepUtils_extends _ _)

theorem partStepStore_extends {st1 : SseState} {rd : JValue} {st' : SseState}
    (h : partStepStore st1 rd = .ok st') : StepExtends st1 st' := by
  unfold partStepStore at h
  dsimp only at h
  repeat' split at h
  all_goals cases h
  all_goals first
    | exact StepExtends.rfl _
    | exact stepExtends_insert _ _ _

theorem partStepFr_extends {st1 : SseState} {pf : List (String × JValue)} {st' : SseState}
    (h : partStepFr st1 pf = .ok st') : StepExtends st1 st' := by
  unfold partStepFr at h
  dsimp only at h
  repeat' split at h
  all_goals first
    | exact partStepStore_extends h
    | (cases h; exact StepExtends.rfl _)
    | cases h

theorem partStep_extends {st : SseState} {p : JValue} {st' : SseState}
    (h : partStep st p = .ok st') : StepExtends st st' := by
  unfold partStep at h
  dsimp only at h
  repeat' split at h
  all_goals first
    | cases h
    | exact partStepFr_extends h
    | exact StepExtends.trans (stepExtends_var _ _) (partStepFr_extends h)

theorem partsStep_extends {st : SseState} {j : JValue} {st' : SseState}
    (h : partsStep st j = .ok st') : StepExtends st st' := by
  unfold partsStep at h
  repeat' split at h
  all_goals first
    | exact runFold_extends (fun _ _ _ hh => partStep_extends hh) _ _ _ h
    | (cases h; exact StepExtends.rfl _)
    | cases h

theorem toolCallItem_extends {st : SseState} {tc : JValue} {st' : SseState}
    (h : toolCallItem st tc = .ok st') : StepExtends st st' := by
  unfold toolCallItem at h
  dsimp only at h
  repeat' split at h
  all_goals cases h
  all_goals first
    | exact StepExtends.rfl _
    | exact stepExtends_var _ _
    | exact stepExtends_var_insert _ _ _ _

theorem toolCallsStep_extends {st : SseState} {j : JValue} {st' : SseState}
    (h : toolCallsStep st j = .ok st') : StepExtends st st' := by
  unfold toolCallsStep at h
  repeat' split at h
  all_goals first
    | exact runFold_extends (fun _ _ _ hh => toolCallItem_extends hh) _ _ _ h
    | (cases h; exact StepExtends.rfl _)
    | cases h

theorem processMessageApp_ok {st : SseState} {j : JValue} {st' : SseState}
    (h : processMessageApp st j = .ok st') :
    st'.assistantReply = (textOk j).elim st.assistantReply some ∧
    st'.orderConfirmed = (st.orderConfirmed || msgPhraseHit j) ∧
    ∀ k, dictHasKey st.toolOutputs k = true → dictHasKey st'.toolOutputs k = true := by
  unfold processMessageApp at h
  cases h1 : textStep st j with
  | error e => rw [h1] at h; cases h
  | ok st1 =>
    rw [h1] at h
    dsimp only at h
    cases h2 : actionsStepApp st1 j with
    | error e => rw [h2] at h; cases h
    | ok st2 =>
      rw [h2] at h
      dsimp only at h
      cases h3 : partsStep st2 j with
      | error e => rw [h3] at h; cases h
      | ok st3 =>
        rw [h3] at h
        dsimp only at h
        have e1 := textStep_ok h1
        have e2 := actionsStepApp_extends h2
        have e3 := partsStep_extends h3
        have e4 := toolCallsStep_extends h
        subst e1
        refine ⟨?_, ?_, ?_⟩
        · rw [e4.1, e3.1, e2.1]
        · rw [e4.2.1, e3.2.1, e2.2.1]
        · intro k hk
          exact e4.2.2 k (e3.2.2 k (e2.2.2 k hk))

theorem processMessageUtils_ok {st : SseState} {j : JValue} {st' : SseState}
    (h : processMessageUtils st j = .ok st') :
    st'.assistantReply = (textOk j).elim st.assistantReply some ∧
    st'.orderConfirmed = (st.orderConfirmed || msgPhraseHit j) ∧
    ∀ k, dictHasKey st.toolOutputs k = true → dictHasKey st'.toolOutputs k = true := by
  unfold processMessageUtils at h
  cases h1 : textStep st j with
  | error e => rw [h1] at h; cases h
  | ok st1 =>
    rw [h1] at h
    dsimp only at h
    cases h2 : actionsStepUtils st1 j with
    | error e => rw [h2] at h; cases h
    | ok st2 =>
      rw [h2] at h
      dsimp only at h
      cases h3 : partsStep st2 j with
      | error e => rw [h3] at h; cases h
      | ok st3 =>
        rw [h3] at h
        dsimp only at h
        have e1 := textStep_ok h1
        have e2 := actionsStepUtils_extends h2
        have e3 := partsStep_extends h3
        have e4 := toolCallsStep_extends h
        subst e1
        refine ⟨?_, ?_, ?_⟩
        · rw [e4.1, e3.1, e2.1]
        · rw [e4.2.1, e3.2.1, e2.2.1]
        · intro k hk
          exact e4.2.2 k (e3.2.2 k (e2.2.2 k hk))

theorem runFold_congr {stepA stepB : SseState → JValue → Except PyErr SseState} :
    ∀ (l : List JValue), (∀ st j, j ∈ l → stepA st j = stepB st j) →
      ∀ st, runFold stepA st l = runFold stepB st l := by
  intro l
  induction l with
  | nil => intro _ st; rfl
  | cons j rest ih =>
    intro h st
    rw [runFold, runFold, h st j (List.mem_cons_self _ _)]
    cases stepB st j with
    | error e => rfl
    | ok st2 => exact ih (fun st3 j2 hj => h st3 j2 (List.mem_cons_of_mem _ hj)) st2

/-- C2: `parse_sse_response` (the `streamlit_app.py` copy) reports
`order_confirmed` exactly when some message's extracted assistant reply
contains one of the eight fixed confirmation phrases, or the key
`update_salesforce_crm` is present in the extracted tool outputs. -/
theorem c2_order_confirmed_iff (text : String) (r : SseResult)
    (h : parseSseApp text = .ok r) :
    r.orderConfirmed =
      ((decodedMessages text).any msgPhraseHit
        || dictHasKey r.toolOutputs (.str "update_salesforce_crm")) := by
  unfold parseSseApp at h
  cases hr : runFold processMessageApp initSse (decodedMessages text) with
  | error e => rw [hr] at h; cases h
  | ok st =>
    rw [hr] at h
    cases h
    have hc := runFold_conf msgPhraseHit
      (fun st1 j st2 hs => (processMessageApp_ok hs).2.1)
      (decodedMessages text) initSse st hr
    show (finalizeSse st).orderConfirmed = _
    unfold finalizeSse
    dsimp only
    rw [hc]
    simp [initSse]

/-- Witness for C2: a concrete response whose reply contains a
confirmation phrase. -/
theorem c2_order_confirmed_iff_witness :
    (SseResult.mk (some "Order confirmed!") [] true).orderConfirmed =
      ((decodedMessages confirmTextInput).any msgPhraseHit
        || dictHasKey ([] : List (JValue × JValue)) (.str "update_salesforce_crm")) :=
  c2_order_confirmed_iff confirmTextInput ⟨some "Order confirmed!", [], true⟩ rfl

theorem fnCallStep_agree {st : SseState} {af : List (String × JValue)}
    (hn : (match jget af "function_call" with
           | .obj fcf => (jget fcf "name").beq (.str "access_cart_information")
           | _ => false) = false) :
    fnCallStepApp st af = fnCallStepUtils st af := by
  unfold fnCallStepApp fnCallStepUtils
  cases hfc : jget af "function_call" with
  | obj fcf =>
    rw [hfc] at hn
    dsimp only at hn ⊢
    simp only [hn, Bool.false_eq_true, if_false, ite_self]
  | null => rfl
  | bool b => rfl
  | num q => rfl
  | str s => rfl
  | arr l => rfl

theorem actionsStep_agree {st : SseState} {j : JValue}
    (hn : msgHasCartFnCall j = false) :
    actionsStepApp st j = actionsStepUtils st j := by
  unfold msgHasCartFnCall at hn
  unfold actionsStepApp actionsStepUtils
  cases j with
  | obj f =>
    dsimp only at hn ⊢
    cases hu : unwrapActions (jget f "actions") with
    | error e => rfl
    | ok a =>
      rw [hu] at hn
      dsimp only at hn ⊢
      cases a with
      | obj af =>
        dsimp only at hn ⊢
        cases hc : toolCodeStep st af with
        | error e => rfl
        | ok st2 =>
          dsimp only
          rw [fnCallStep_agree hn]
      | null => rfl
      | bool b => rfl
      | num q => rfl
      | str s => rfl
      | arr l => rfl
  | null => rfl
  | bool b => rfl
  | num q => rfl
  | str s => rfl
  | arr l => rfl

theorem processMessage_agree {st : SseState} {j : JValue}
    (hn : msgHasCartFnCall j = false) :
    processMessageApp st j = processMessageUtils st j := by
  unfold processMessageApp processMessageUtils
  cases textStep st j with
  | error e => rfl
  | ok st1 =>
    dsimp only
    rw [actionsStep_agree hn]

/-- C6 counterexample: on a message carrying an `actions.function_call`
for `access_cart_information` with a `function_result`, the
`streamlit_app.py` copy stores the result while the
`streamlit_components/utils.py` copy returns empty tool outputs, so the
two copies do not compute the same result for every input. -/
theorem c6_counterexample :
    parseSseApp cartFnCallInput =
      .ok ⟨none, [(.str "access_cart_information", .obj [("cart", .arr [])])], false⟩ ∧
    parseSseUtils cartFnCallInput = .ok ⟨none, [], false⟩ ∧
    parseSseApp cartFnCallInput ≠ parseSseUtils cartFnCallInput := by
  refine ⟨rfl, rfl, fun h => ?_⟩
  rw [(rfl : parseSseApp cartFnCallInput =
        .ok ⟨none, [(.str "access_cart_information", .obj [("cart", .arr [])])], false⟩),
      (rfl : parseSseUtils cartFnCallInput = .ok ⟨none, [], false⟩)] at h
  injection h with h2
  rw [SseResult.mk.injEq] at h2
  exact List.cons_ne_nil _ _ h2.2.1

/-- C6 amended: the two copies of `parse_sse_response` compute the same
result on every response text in which no decoded message carries an
`actions.function_call` naming `access_cart_information` (the only code
difference between the two copies lies under that condition). -/
theorem c6_parse_copies_agree (text : String)
    (h : (decodedMessages text).all (fun j => !msgHasCartFnCall j) = true) :
    parseSseApp text = parseSseUtils text := by
  unfold parseSseApp parseSseUtils
  have hall := List.all_eq_true.mp h
  rw [runFold_congr (decodedMessages text)
    (fun st j hj => processMessage_agree (by simpa using hall j hj))]

/-- Witness for C6 amended: the two copies agree on a concrete
`tool_code` message. -/
theorem c6_parse_copies_agree_witness :
    parseSseApp toolCodeInput = parseSseUtils toolCodeInput :=
  c6_parse_copies_agree toolCodeInput rfl

theorem fnCallStepApp_cart_est {st1 : SseState} {af : List (String × JValue)}
    {fcf : List (String × JValue)}
    (hfc : jget af "function_call" = .obj fcf)
    (hname : jget fcf "name" = .str "access_cart_information")
    (hargs : (match objGetD fcf "arguments" (.str "\x7b\x7d") with
              | .str s => (loads s).isSome
              | _ => true) = true)
    (hfres : (objGetD af "function_result" (.str "\x7b\x7d")).truthy = true) :
    dictHasKey (fnCallStepApp st1 af).toolOutputs (.str "access_cart_information") = true := by
  unfold fnCallStepApp
  rw [hfc]
  dsimp only
  rw [hname]
  rw [if_pos (by rfl : (JValue.str "access_cart_information").truthy = true)]
  rw [if_pos hargs]
  rw [if_pos (JValue.beq_str_self "access_cart_information")]
  rw [if_pos hfres]
  exact dictHasKey_insert_self (JValue.beq_str_self _) _ _

theorem actionsStepApp_toolCode {st : SseState} {j : JValue} {st' : SseState} {n : String}
    (h : actionsStepApp st j = .ok st') (hn : toolCodeName j = some n) :
    dictHasKey st'.toolOutputs (.str n) = true := by
  unfold toolCodeName at hn
  unfold actionsStepApp at h
  cases j with
  | obj f =>
    dsimp only at hn h
    cases hu : unwrapActions (jget f "actions") with
    | error e => rw [hu] at hn; simp at hn
    | ok a =>
      rw [hu] at hn h
      dsimp only at hn h
      cases a with
      | obj af =>
        dsimp only at hn h
        cases htc : jget af "tool_code" with
        | str code =>
          rw [htc] at hn
          cases htr : jget af "tool_result" with
          | str rs =>
            rw [htr] at hn
            dsimp only at hn
            by_cases hcond :
                ((JValue.str code).truthy && (JValue.str rs).truthy) = true
            · rw [if_pos hcond] at hn
              have hstep : toolCodeStep st af =
                  .ok (SseState.mk st.assistantReply
                    (dictInsert st.toolOutputs (.str n) ((loads rs).getD (.str rs)))
                    st.orderConfirmed (some (.str n))) := by
                unfold toolCodeStep
                dsimp only
                rw [htc, htr]
                rw [if_pos hcond]
                dsimp only
                rw [hn]
              rw [hstep] at h
              dsimp only at h
              cases h
              exact (fnCallStepApp_extends _ _).2.2 _
                (dictHasKey_insert_self (JValue.beq_str_self n) _ _)
            · rw [if_neg hcond] at hn
              cases hn
          | null => rw [htr] at hn; simp at hn
          | bool b => rw [htr] at hn; simp at hn
          | num q => rw [htr] at hn; simp at hn
          | arr l => rw [htr] at hn; simp at hn
          | obj f2 => rw [htr] at hn; simp at hn
        | null => rw [htc] at hn; simp at hn
        | bool b => rw [htc] at hn; simp at hn
        | num q => rw [htc] at hn; simp at hn
        | arr l => rw [htc] at hn; simp at hn
        | obj f2 => rw [htc] at hn; simp at hn
      | null => simp at hn
      | bool b => simp at hn
      | num q => simp at hn
      | str s => simp at hn
      | arr l => simp at hn
  | null => simp at hn
  | bool b => simp at hn
  | num q => simp at hn
  | str s => simp at hn
  | arr l => simp at hn

theorem actionsStepApp_cart {st : SseState} {j : JValue} {st' : SseState}
    (h : actionsStepApp st j = .ok st') (hs : fnCallCartShape j = true) :
    dictHasKey st'.toolOutputs (.str "access_cart_information") = true := by
  unfold fnCallCartShape at hs
  unfold actionsStepApp at h
  cases j with
  | obj f =>
    dsimp only at hs h
    cases hu : unwrapActions (jget f "actions") with
    | error e => rw [hu] at hs; simp at hs
    | ok a =>
      rw [hu] at hs h
      dsimp only at hs h
      cases a with
      | obj af =>
        dsimp only at hs h
        cases hfc : jget af "function_call" with
        | obj fcf =>
          rw [hfc] at hs
          dsimp only at hs
          simp only [Bool.and_eq_true] at hs
          obtain ⟨⟨hbeq, hargs⟩, hfres⟩ := hs
          have hname := JValue.beq_str.mp hbeq
          cases htc2 : toolCodeStep st af with
          | error e => rw [htc2] at h; cases h
          | ok st1 =>
            rw [htc2] at h
            dsimp only at h
            cases h
            exact fnCallStepApp_cart_est hfc hname hargs hfres
        | null => rw [hfc] at hs; simp at hs
        | bool b => rw [hfc] at hs; simp at hs
        | num q => rw [hfc] at hs; simp at hs
        | str s => rw [hfc] at hs; simp at hs
        | arr l => rw [hfc] at hs; simp at hs
      | null => simp at hs
      | bool b => simp at hs
      | num q => simp at hs
      | str s => simp at hs
      | arr l => simp at hs
  | null => simp at hs
  | bool b => simp at hs
  | num q => simp at hs
  | str s => simp at hs
  | arr l => simp at hs

theorem processMessageApp_fromActions {st : SseState} {j : JValue} {st' : SseState}
    {k : JValue} (h : processMessageApp st j = .ok st')
    (est : ∀ (st1 st2 : SseState), actionsStepApp st1 j = .ok st2 →
      dictHasKey st2.toolOutputs k = true) :
    dictHasKey st'.toolOutputs k = true := by
  unfold processMessageApp at h
  cases h1 : textStep st j with
  | error e => rw [h1] at h; cases h
  | ok st1 =>
    rw [h1] at h
    dsimp only at h
    cases h2 : actionsStepApp st1 j with
    | error e => rw [h2] at h; cases h
    | ok st2 =>
      rw [h2] at h
      dsimp only at h
      cases h3 : partsStep st2 j with
      | error e => rw [h3] at h; cases h
      | ok st3 =>
        rw [h3] at h
        dsimp only at h
        exact (toolCallsStep_extends h).2.2 k
          ((partsStep_extends h3).2.2 k (est st1 st2 h2))

theorem processMessageApp_fromParts {st : SseState} {j : JValue} {st' : SseState}
    {k : JValue} (h : processMessageApp st j = .ok st')
    (est : ∀ (st2 st3 : SseState), partsStep st2 j = .ok st3 →
      dictHasKey st3.toolOutputs k = true) :
    dictHasKey st'.toolOutputs k = true := by
  unfold processMessageApp at h
  cases h1 : textStep st j with
  | error e => rw [h1] at h; cases h
  | ok st1 =>
    rw [h1] at h
    dsimp only at h
    cases h2 : actionsStepApp st1 j with
    | error e => rw [h2] at h; cases h
    | ok st2 =>
      rw [h2] at h
      dsimp only at h
      cases h3 : partsStep st2 j with
      | error e => rw [h3] at h; cases h
      | ok st3 =>
        rw [h3] at h
        dsimp only at h
        exact (toolCallsStep_extends h).2.2 k (est st2 st3 h3)

theorem processMessageApp_fromToolCalls {st : SseState} {j : JValue} {st' : SseState}
    {k : JValue} (h : processMessageApp st j = .ok st')
    (est : ∀ (st3 st4 : SseState), toolCallsStep st3 j = .ok st4 →
      dictHasKey st4.toolOutputs k = true) :
    dictHasKey st'.toolOutputs k = true := by
  unfold processMessageApp at h
  cases h1 : textStep st j with
  | error e => rw [h1] at h; cases h
  | ok st1 =>
    rw [h1] at h
    dsimp only at h
    cases h2 : actionsStepApp st1 j with
    | error e => rw [h2] at h; cases h
    | ok st2 =>
      rw [h2] at h
      dsimp only at h
      cases h3 : partsStep st2 j with
      | error e => rw [h3] at h; cases h
      | ok st3 =>
        rw [h3] at h
        dsimp only at h
        exact est st3 st' h

theorem partStepStore_var {st1 : SseState} {rd : JValue} {st' : SseState}
    (h : partStepStore st1 rd = .ok st') : st'.toolNameVar = st1.toolNameVar := by
  unfold partStepStore at h
  dsimp only at h
  repeat' split at h
  all_goals cases h
  all_goals rfl

theorem partStepFr_var {st1 : SseState} {pf : List (String × JValue)} {st' : SseState}
    (h : partStepFr st1 pf = .ok st') : st'.toolNameVar = st1.toolNameVar := by
  unfold partStepFr at h
  dsimp only at h
  repeat' split at h
  all_goals first
    | exact partStepStore_var h
    | (cases h; rfl)
    | cases h

theorem strTruthy_of_ne {n : String} (hne : n ≠ "") : (JValue.str n).truthy = true := by
  have h2 : n.isEmpty = false := by
    rw [Bool.eq_false_iff]
    intro hh
    exact hne ((String.isEmpty_iff n).mp hh)
  have h3 : (JValue.str n).truthy = !n.isEmpty := rfl
  rw [h3, h2]
  rfl

theorem partStepStore_est {st1 : SseState} {rd : JValue} {st' : SseState} {n : String}
    (h : partStepStore st1 rd = .ok st')
    (hv : st1.toolNameVar = some (.str n)) (hne : n ≠ "") (hrdt : rd.truthy = true) :
    dictHasKey st'.toolOutputs (.str n) = true := by
  unfold partStepStore at h
  rw [if_pos hrdt] at h
  rw [hv] at h
  try simp only at h
  rw [if_pos (strTruthy_of_ne hne)] at h
  try simp only at h
  cases h
  exact dictHasKey_insert_self (JValue.beq_str_self n) _ _

theorem chainTruthy {frf : List (String × JValue)}
    (hdata : ((jget frf "response").truthy || (jget frf "result").truthy ||
      (jget frf "content").truthy) = true) :
    (if (jget frf "response").truthy then jget frf "response"
     else if (jget frf "result").truthy then jget frf "result"
     else if (jget frf "content").truthy then jget frf "content"
     else .null).truthy = true := by
  by_cases h1 : (jget frf "response").truthy = true
  · rw [if_pos h1]; exact h1
  · rw [if_neg h1]
    by_cases h2 : (jget frf "result").truthy = true
    · rw [if_pos h2]; exact h2
    · rw [if_neg h2]
      by_cases h3 : (jget frf "content").truthy = true
      · rw [if_pos h3]; exact h3
      · rw [if_neg h3]
        simp only [Bool.not_eq_true] at h1 h2 h3
        rw [h1, h2, h3] at hdata
        simp at hdata

theorem partStepFr_resp {st1 : SseState} {pf : List (String × JValue)} {st' : SseState}
    {n : String} (h : partStepFr st1 pf = .ok st')
    (hv : st1.toolNameVar = some (.str n)) (hne : n ≠ "")
    (hrd : partRespData (.obj pf) = true) :
    dictHasKey st'.toolOutputs (.str n) = true := by
  unfold partRespData at hrd
  unfold partStepFr at h
  dsimp only at hrd h
  cases hfr : jget pf "functionResponse" with
  | obj frf =>
    rw [hfr] at hrd h
    dsimp only at hrd h
    simp only [Bool.and_eq_true] at hrd
    obtain ⟨htru, hdata⟩ := hrd
    rw [if_pos htru] at h
    exact partStepStore_est h hv hne (chainTruthy hdata)
  | null => rw [hfr] at hrd; simp at hrd
  | bool b => rw [hfr] at hrd; simp at hrd
  | num q => rw [hfr] at hrd; simp at hrd
  | str s => rw [hfr] at hrd; simp at hrd
  | arr l => rw [hfr] at hrd; simp at hrd

theorem partStep_resp {st : SseState} {p : JValue} {st' : SseState} {n : String}
    (h : partStep st p = .ok st')
    (hv : st.toolNameVar = some (.str n)) (hne : n ≠ "")
    (hfc : partFnCallTruthy p = false) (hrd : partRespData p = true) :
    dictHasKey st'.toolOutputs (.str n) = true := by
  unfold partFnCallTruthy at hfc
  unfold partStep at h
  cases p with
  | obj pf =>
    dsimp only at hfc h
    rw [if_neg (by simp [hfc])] at h
    exact partStepFr_resp h hv hne hrd
  | null => simp [partRespData] at hrd
  | bool b => simp [partRespData] at hrd
  | num q => simp [partRespData] at hrd
  | str s => simp [partRespData] at hrd
  | arr l => simp [partRespData] at hrd

theorem partStep_call_resp {st : SseState} {p : JValue} {st' : SseState} {n : String}
    (h : partStep st p = .ok st')
    (hfn : partFnCallName p = some n) (hne : n ≠ "") (hrd : partRespData p = true) :
    dictHasKey st'.toolOutputs (.str n) = true := by
  unfold partFnCallName at hfn
  unfold partStep at h
  cases p with
  | obj pf =>
    dsimp only at hfn h
    cases hfc : jget pf "functionCall" with
    | obj fcf =>
      rw [hfc] at hfn h
      dsimp only at hfn h
      by_cases htru : (JValue.obj fcf).truthy = true
      · rw [if_pos htru] at hfn h
        cases hname : jget fcf "name" with
        | str s =>
          rw [hname] at hfn h
          dsimp only at hfn
          cases hfn
          exact partStepFr_resp h rfl hne hrd
        | null => rw [hname] at hfn; simp at hfn
        | bool b => rw [hname] at hfn; simp at hfn
        | num q => rw [hname] at hfn; simp at hfn
        | arr l => rw [hname] at hfn; simp at hfn
        | obj f2 => rw [hname] at hfn; simp at hfn
      · rw [if_neg htru] at hfn; cases hfn
    | null => rw [hfc] at hfn; simp at hfn
    | bool b => rw [hfc] at hfn; simp at hfn
    | num q => rw [hfc] at hfn; simp at hfn
    | str s => rw [hfc] at hfn; simp at hfn
    | arr l => rw [hfc] at hfn; simp at hfn
  | null => simp at hfn
  | bool b => simp at hfn
  | num q => simp at hfn
  | str s => simp at hfn
  | arr l => simp at hfn

theorem partStep_var_none {st : SseState} {p : JValue} {st' : SseState}
    (h : partStep st p = .ok st') (hfc : partFnCallTruthy p = false) :
    st'.toolNameVar = st.toolNameVar := by
  unfold partFnCallTruthy at hfc
  unfold partStep at h
  cases p with
  | obj pf =>
    dsimp only at hfc h
    rw [if_neg (by simp [hfc])] at h
    exact partStepFr_var h
  | null => cases h
  | bool b => cases h
  | num q => cases h
  | str s => cases h
  | arr l => cases h

theorem partStep_var_name {st : SseState} {p : JValue} {st' : SseState} {n : String}
    (h : partStep st p = .ok st') (hfn : partFnCallName p = some n) :
    st'.toolNameVar = some (.str n) := by
  unfold partFnCallName at hfn
  unfold partStep at h
  cases p with
  | obj pf =>
    dsimp only at hfn h
    cases hfc : jget pf "functionCall" with
    | obj fcf =>
      rw [hfc] at hfn h
      dsimp only at hfn h
      by_cases htru : (JValue.obj fcf).truthy = true
      · rw [if_pos htru] at hfn h
        cases hname : jget fcf "name" with
        | str s =>
          rw [hname] at hfn h
          dsimp only at hfn
          cases hfn
          rw [partStepFr_var h]
        | null => rw [hname] at hfn; simp at hfn
        | bool b => rw [hname] at hfn; simp at hfn
        | num q => rw [hname] at hfn; simp at hfn
        | arr l => rw [hname] at hfn; simp at hfn
        | obj f2 => rw [hname] at hfn; simp at hfn
      · rw [if_neg htru] at hfn; cases hfn
    | null => rw [hfc] at hfn; simp at hfn
    | bool b => rw [hfc] at hfn; simp at hfn
    | num q => rw [hfc] at hfn; simp at hfn
    | str s => rw [hfc] at hfn; simp at hfn
    | arr l => rw [hfc] at hfn; simp at hfn
  | null => simp at hfn
  | bool b => simp at hfn
  | num q => simp at hfn
  | str s => simp at hfn
  | arr l => simp at hfn

theorem runParts_respFirst :
    ∀ (l : List JValue) (st st' : SseState) (n : String),
      runFold partStep st l = .ok st' →
      st.toolNameVar = some (.str n) → n ≠ "" → respFirst l = true →
      dictHasKey st'.toolOutputs (.str n) = true := by
  intro l
  induction l with
  | nil => intro st st' n h hv hne hrf; simp [respFirst] at hrf
  | cons p rest ih =>
    intro st st' n h hv hne hrf
    rw [respFirst] at hrf
    rw [runFold] at h
    cases hs : partStep st p with
    | error e => rw [hs] at h; cases h
    | ok st2 =>
      rw [hs] at h
      by_cases hfc : partFnCallTruthy p = true
      · rw [if_pos hfc] at hrf; cases hrf
      · have hfc2 : partFnCallTruthy p = false := by
          revert hfc; cases partFnCallTruthy p <;> simp
        rw [if_neg hfc] at hrf
        by_cases hrd : partRespData p = true
        · have hkey := partStep_resp hs hv hne hfc2 hrd
          exact runFold_preserve
            (fun a b c hh hp => (partStep_extends hh).2.2 _ hp) rest st2 st' h hkey
        · rw [if_neg hrd] at hrf
          have hv2 : st2.toolNameVar = some (.str n) := by
            rw [partStep_var_none hs hfc2, hv]
          exact ih st2 st' n h hv2 hne hrf

theorem runParts_recover :
    ∀ (l : List JValue) (st st' : SseState) (n : String),
      runFold partStep st l = .ok st' → partsRecover n l = true →
      dictHasKey st'.toolOutputs (.str n) = true := by
  intro l
  induction l with
  | nil => intro st st' n h hpr; simp [partsRecover] at hpr
  | cons p rest ih =>
    intro st st' n h hpr
    rw [partsRecover] at hpr
    rw [runFold] at h
    cases hs : partStep st p with
    | error e => rw [hs] at h; cases h
    | ok st2 =>
      rw [hs] at h
      rcases Bool.or_eq_true_iff.mp hpr with h1 | h1
      · simp only [Bool.and_eq_true] at h1
        obtain ⟨⟨hfn, hne⟩, hdisj⟩ := h1
        have hfn2 : partFnCallName p = some n := by simpa using hfn
        have hne2 : n ≠ "" := by simpa using hne
        rcases Bool.or_eq_true_iff.mp hdisj with h2 | h2
        · have hkey := partStep_call_resp hs hfn2 hne2 h2
          exact runFold_preserve
            (fun a b c hh hp => (partStep_extends hh).2.2 _ hp) rest st2 st' h hkey
        · have hv2 := partStep_var_name hs hfn2
          exact runParts_respFirst rest st2 st' n h hv2 hne2 h2
      · exact ih st2 st' n h h1

theorem partsStep_recover {st : SseState} {j : JValue} {st' : SseState} {n : String}
    (h : partsStep st j = .ok st') (hp : msgPartsRecover j n = true) :
    dictHasKey st'.toolOutputs (.str n) = true := by
  unfold msgPartsRecover msgParts at hp
  unfold partsStep at h
  cases j with
  | obj f =>
    dsimp only at hp h
    cases hcf : jget f "content" with
    | obj cf =>
      rw [hcf] at hp
      dsimp only at hp
      cases hparts : objGetD cf "parts" (.arr []) with
      | arr l =>
        rw [hparts] at hp
        dsimp only at hp
        have hmem : objMem f "content" = true := by
          unfold jget at hcf
          unfold objMem
          cases ho : objGet f "content" with
          | none => rw [ho] at hcf; cases hcf
          | some v => rfl
        rw [show pyContains (JValue.obj f) "content" = Except.ok true by
          unfold pyContains; dsimp only; rw [hmem]] at h
        dsimp only at h
        rw [hcf] at h
        dsimp only at h
        rw [hparts] at h
        dsimp only at h
        exact runParts_recover l st st' n h hp
      | null => rw [hparts] at hp; simp at hp
      | bool b => rw [hparts] at hp; simp at hp
      | num q => rw [hparts] at hp; simp at hp
      | str s => rw [hparts] at hp; simp at hp
      | obj f2 => rw [hparts] at hp; simp at hp
    | null => rw [hcf] at hp; simp at hp
    | bool b => rw [hcf] at hp; simp at hp
    | num q => rw [hcf] at hp; simp at hp
    | str s => rw [hcf] at hp; simp at hp
    | arr l => rw [hcf] at hp; simp at hp
  | null => simp at hp
  | bool b => simp at hp
  | num q => simp at hp
  | str s => simp at hp
  | arr l => simp at hp

theorem toolCallItem_est {st : SseState} {tc : JValue} {st' : SseState} {n : String}
    (h : toolCallItem st tc = .ok st') (hp : toolCallPred n tc = true) :
    dictHasKey st'.toolOutputs (.str n) = true := by
  unfold toolCallPred at hp
  unfold toolCallItem at h
  cases tc with
  | obj tcf =>
    dsimp only at hp h
    simp only [Bool.and_eq_true] at hp
    obtain ⟨⟨hbeq, hne⟩, hresp⟩ := hp
    have hname := JValue.beq_str.mp hbeq
    have hne2 : n ≠ "" := by simpa using hne
    rw [hname] at h
    rw [if_pos (by rw [strTruthy_of_ne hne2, hresp]; rfl)] at h
    try simp only at h
    cases h
    exact dictHasKey_insert_self (JValue.beq_str_self n) _ _
  | null => simp at hp
  | bool b => simp at hp
  | num q => simp at hp
  | str s => simp at hp
  | arr l => simp at hp

theorem toolCallsStep_recover {st : SseState} {j : JValue} {st' : SseState} {n : String}
    (h : toolCallsStep st j = .ok st') (ht : msgToolCallsRecover j n = true) :
    dictHasKey st'.toolOutputs (.str n) = true := by
  unfold msgToolCallsRecover at ht
  unfold toolCallsStep at h
  cases j with
  | obj f =>
    dsimp only at ht h
    cases htl : objGetD f "tool_calls" (.arr []) with
    | arr l =>
      rw [htl] at ht h
      dsimp only at ht h
      rcases List.any_eq_true.mp ht with ⟨tc, htc, hpred⟩
      have hl : l.isEmpty = false := by
        cases l with
        | nil => cases htc
        | cons a b => rfl
      rw [if_neg (by simp [hl])] at h
      exact runFold_establish toolCallItem
        (fun a b c hh hp => (toolCallItem_extends hh).2.2 _ hp) tc
        (fun a b hh => toolCallItem_est hh hpred) l st st' htc h
    | null => rw [htl] at ht; simp at ht
    | bool b => rw [htl] at ht; simp at ht
    | num q => rw [htl] at ht; simp at ht
    | str s => rw [htl] at ht; simp at ht
    | obj f2 => rw [htl] at ht; simp at ht
  | null => simp at ht
  | bool b => simp at ht
  | num q => simp at ht
  | str s => simp at ht
  | arr l => simp at ht

/-- C1 counterexample: on a message carrying an `actions.function_call`
for `schedule_service` together with an `actions.function_result`,
`parse_sse_response` of `streamlit_app.py` returns empty tool outputs:
no result is recovered from the `actions.function_call` shape for a tool
other than `access_cart_information`, so the claim as stated is false. -/
theorem c1_counterexample :
    (decodedMessages otherFnCallInput).any
      (fun j => msgFnCallWithResult j "schedule_service") = true ∧
    parseSseApp otherFnCallInput = .ok ⟨none, [], false⟩ :=
  ⟨rfl, rfl⟩

/-- C1 amended: on every SSE response text that parses without a Python
error, `parse_sse_response` of `streamlit_app.py` tries its five parsing
strategies on every `data:`-delimited message: the returned assistant
reply is the last well-formed truthy `content.parts[0].text` (stripped);
a `tool_code`/`tool_result` message (both truthy strings, the code
matching `name(`) puts the name in the returned tool outputs; an
`actions.function_call` stores a result only for
`access_cart_information` (from `actions.function_result`); a
`content.parts` list with a `functionCall` naming a tool followed by a
`functionResponse` with data stores that name; and a `tool_calls[]`
element with a truthy string name and truthy response stores its name. -/
theorem c1_strategy_recovery (text : String) (r : SseResult)
    (h : parseSseApp text = .ok r) :
    (r.assistantReply = (decodedMessages text).foldl
      (fun acc j => (textOk j).elim acc some) none) ∧
    (∀ m ∈ decodedMessages text, ∀ n : String, toolCodeName m = some n →
      dictHasKey r.toolOutputs (.str n) = true) ∧
    (∀ m ∈ decodedMessages text, fnCallCartShape m = true →
      dictHasKey r.toolOutputs (.str "access_cart_information") = true) ∧
    (∀ m ∈ decodedMessages text, ∀ n : String, msgPartsRecover m n = true →
      dictHasKey r.toolOutputs (.str n) = true) ∧
    (∀ m ∈ decodedMessages text, ∀ n : String, msgToolCallsRecover m n = true →
      dictHasKey r.toolOutputs (.str n) = true) := by
  unfold parseSseApp at h
  cases hr : runFold processMessageApp initSse (decodedMessages text) with
  | error e => rw [hr] at h; cases h
  | ok st =>
    rw [hr] at h
    cases h
    refine ⟨?_, ?_, ?_, ?_, ?_⟩
    · exact runFold_reply textOk (fun a b c hh => (processMessageApp_ok hh).1)
        (decodedMessages text) initSse st hr
    · intro m hm n hn
      exact runFold_establish processMessageApp
        (fun a b c hh hp => (processMessageApp_ok hh).2.2 _ hp) m
        (fun a b hh => processMessageApp_fromActions hh
          (fun s1 s2 h2 => actionsStepApp_toolCode h2 hn))
        (decodedMessages text) initSse st hm hr
    · intro m hm hs
      exact runFold_establish processMessageApp
        (fun a b c hh hp => (processMessageApp_ok hh).2.2 _ hp) m
        (fun a b hh => processMessageApp_fromActions hh
          (fun s1 s2 h2 => actionsStepApp_cart h2 hs))
        (decodedMessages text) initSse st hm hr
    · intro m hm n hn
      exact runFold_establish processMessageApp
        (fun a b c hh hp => (processMessageApp_ok hh).2.2 _ hp) m
        (fun a b hh => processMessageApp_fromParts hh
          (fun s2 s3 h3 => partsStep_recover h3 hn))
        (decodedMessages text) initSse st hm hr
    · intro m hm n hn
      exact runFold_establish processMessageApp
        (fun a b c hh hp => (processMessageApp_ok hh).2.2 _ hp) m
        (fun a b hh => processMessageApp_fromToolCalls hh
          (fun s3 s4 h4 => toolCallsStep_recover h4 hn))
        (decodedMessages text) initSse st hm hr

/-- Witness for C1 amended: on a concrete `tool_code` message for
`modify_cart`, the recovered key is present in the returned tool outputs. -/
theorem c1_strategy_recovery_witness :
    dictHasKey (SseResult.mk none
      [(.str "modify_cart", .obj [("ok", .bool true)])] false).toolOutputs
      (.str "modify_cart") = true :=
  (c1_strategy_recovery toolCodeInput
      ⟨none, [(.str "modify_cart", .obj [("ok", .bool true)])], false⟩ rfl).2.1
    (.obj [("actions", .obj [("tool_code", .str "modify_cart(a)"),
      ("tool_result", .str "\x7b\"ok\": true\x7d")])])
    (List.mem_singleton_self _) "modify_cart" rfl

/-- C3: in the tool wrappers of `db_tools.py`, any exception from the
underlying database operation is caught: `access_cart_information` then
returns the fixed mock cart (two items with product ids `RUN-S05` and
`RUN-A01`, subtotal 155.75) and `modify_cart` returns a success-status
dictionary; in the embedding neither wrapper can raise, since both are
total functions of the underlying outcome. -/
theorem c3_tool_fallbacks (err err2 : String) (itemsToAdd itemsToRemove : List JValue) :
    toolAccessCartInformation (.error err) = mockCart ∧
    (∃ items : List JValue,
      mockCart = .obj [("cart", .arr items), ("subtotal", .num (15575 / 100 : ℚ))] ∧
      items.length = 2 ∧
      (items.map fun it => jvField it "product_id") = [.str "RUN-S05", .str "RUN-A01"]) ∧
    (∀ r : JValue, toolAccessCartInformation (.ok r) = r) ∧
    toolModifyCart itemsToAdd itemsToRemove (.error err2) =
      .obj [("status", .str "success"), ("message", .str "Cart updated successfully."),
            ("items_added", .bool !itemsToAdd.isEmpty),
            ("items_removed", .bool !itemsToRemove.isEmpty)] :=
  ⟨rfl, ⟨_, rfl, rfl, rfl⟩, fun _ => rfl, rfl⟩

/-- C8: the persistent schema of `models.py` consists of exactly the nine
claimed tables, with the claimed foreign keys: a `customer_id` key into
`customers.id` on `addresses`, `communication_preferences`,
`sports_profiles`, `cart_items`, `orders` and `appointments`, a
`product_id` key into `products.id` on `cart_items` and `order_items`,
and an `order_id` key into `orders.id` on `order_items`. -/
theorem c8_schema :
    schemaTables.length = 9 ∧
    (schemaTables.map TableDef.name).Perm
      ["customers", "addresses", "communication_preferences", "sports_profiles",
       "products", "cart_items", "orders", "order_items", "appointments"] ∧
    addressesTable.foreignKeys = [⟨"customer_id", "customers", "id"⟩] ∧
    communicationPreferencesTable.foreignKeys = [⟨"customer_id", "customers", "id"⟩] ∧
    sportsProfilesTable.foreignKeys = [⟨"customer_id", "customers", "id"⟩] ∧
    cartItemsTable.foreignKeys =
      [⟨"customer_id", "customers", "id"⟩, ⟨"product_id", "products", "id"⟩] ∧
    ordersTable.foreignKeys = [⟨"customer_id", "customers", "id"⟩] ∧
    appointmentsTable.foreignKeys = [⟨"customer_id", "customers", "id"⟩] ∧
    orderItemsTable.foreignKeys =
      [⟨"order_id", "orders", "id"⟩, ⟨"product_id", "products", "id"⟩] := by
  refine ⟨rfl, ?_, rfl, rfl, rfl, rfl, rfl, rfl, rfl⟩
  decide

/-- C9: while handling one user message, the Streamlit client of
`streamlit_app.py` POSTs only to the session-creation path
`/apps/.../users/.../sessions/...` and to `/run_sse`; the session path is
requested exactly once and only when the session is not yet initialized
(the flag is set afterwards, so this happens once per UI session), and
every other request of the turn goes to `/run_sse`. -/
theorem c9_agent_endpoints (sessionInited : Bool) (appName userId sessionId : String)
    (toolOutputsHaveCart cartNeedsRefresh isSystemMessage : Bool) :
    (∀ p ∈ agentTurnPaths sessionInited appName userId sessionId
        toolOutputsHaveCart cartNeedsRefresh isSystemMessage,
      p = sessionPath appName userId sessionId ∨ p = AgentRunPath) ∧
    (sessionInited = true →
      agentTurnPaths sessionInited appName userId sessionId
          toolOutputsHaveCart cartNeedsRefresh isSystemMessage = [AgentRunPath] ∨
      agentTurnPaths sessionInited appName userId sessionId
          toolOutputsHaveCart cartNeedsRefresh isSystemMessage =
        [AgentRunPath, AgentRunPath]) ∧
    (sessionInited = false →
      agentTurnPaths sessionInited appName userId sessionId
          toolOutputsHaveCart cartNeedsRefresh isSystemMessage =
        [sessionPath appName userId sessionId, AgentRunPath] ∨
      agentTurnPaths sessionInited appName userId sessionId
          toolOutputsHaveCart cartNeedsRefresh isSystemMessage =
        [sessionPath appName userId sessionId, AgentRunPath, AgentRunPath]) := by
  unfold agentTurnPaths
  cases sessionInited <;>
    cases toolOutputsHaveCart <;>
      cases cartNeedsRefresh <;>
        cases isSystemMessage <;>
          simp

/-- Witness for C9 at a concrete instantiation: an initialized session
with a cart-refreshing prompt issues one or two `/run_sse` requests. -/
theorem c9_agent_endpoints_witness :
    agentTurnPaths true "app" "user" "sess" false true false = [AgentRunPath] ∨
    agentTurnPaths true "app" "user" "sess" false true false =
      [AgentRunPath, AgentRunPath] :=
  (c9_agent_endpoints true "app" "user" "sess" false true false).2.1 rfl

/-- C10: `update_cart_display` of `streamlit_app.py` returns true exactly
when the input is a dict with a `"cart"` key, a list, or a string parsing
as JSON to one of those two shapes; in those cases the session cart is
replaced by the extracted item list, otherwise it is left unchanged. -/
theorem c10_update_cart_display (cartData sessionCart : JValue) :
    update_cart_display cartData sessionCart =
      (cartShapeOk cartData,
       if cartShapeOk cartData then cartExtract cartData else sessionCart) := by
  cases cartData with
  | obj f =>
    by_cases h : objMem f "cart" = true <;>
      simp [update_cart_display, cartShapeOk, cartExtract, h]
  | arr l => rfl
  | str s =>
    simp only [update_cart_display, cartShapeOk, cartExtract]
    rcases hl : loads s with _ | v
    · simp
    · cases v <;> simp
      case obj f => by_cases h : objMem f "cart" = true <;> simp [h]
  | null => rfl
  | bool b => rfl
  | num q => rfl

end BetterSale
